import Mathlib

/-!
# interception-vimproved: dual-role key engine

A shallow embedding of `interception-vimproved.cpp`: the event record, the
`map_space` table, `isModifier`, the `InterceptedKeyModifier` constructor,
`write_combo`, `map`, and the body of the event loop of `main`, written as a
function from the loop's local variables and one input record to the new
local variables and the list of records written to stdout.

Logging to stderr is not part of the embedding.  A read of `map_space` at an
index that is not below `MAX_KEY` has no defined result in the program; the
embedding returns `none` for a loop iteration that performs such a read.
-/

namespace InterceptionVimproved

/-! ## Constants of `linux/input-event-codes.h` used by the program -/

@[simp] def EV_SYN : Nat := 0
@[simp] def EV_KEY : Nat := 1
@[simp] def EV_MSC : Nat := 4
@[simp] def SYN_REPORT : Nat := 0
@[simp] def MSC_SCAN : Nat := 4

@[simp] def KEY_ESC : Nat := 1
@[simp] def KEY_1 : Nat := 2
@[simp] def KEY_2 : Nat := 3
@[simp] def KEY_3 : Nat := 4
@[simp] def KEY_4 : Nat := 5
@[simp] def KEY_5 : Nat := 6
@[simp] def KEY_6 : Nat := 7
@[simp] def KEY_7 : Nat := 8
@[simp] def KEY_8 : Nat := 9
@[simp] def KEY_9 : Nat := 10
@[simp] def KEY_0 : Nat := 11
@[simp] def KEY_MINUS : Nat := 12
@[simp] def KEY_EQUAL : Nat := 13
@[simp] def KEY_BACKSPACE : Nat := 14
@[simp] def KEY_E : Nat := 18
@[simp] def KEY_Y : Nat := 21
@[simp] def KEY_U : Nat := 22
@[simp] def KEY_I : Nat := 23
@[simp] def KEY_O : Nat := 24
@[simp] def KEY_LEFTCTRL : Nat := 29
@[simp] def KEY_A : Nat := 30
@[simp] def KEY_D : Nat := 32
@[simp] def KEY_H : Nat := 35
@[simp] def KEY_J : Nat := 36
@[simp] def KEY_K : Nat := 37
@[simp] def KEY_L : Nat := 38
@[simp] def KEY_LEFTSHIFT : Nat := 42
@[simp] def KEY_B : Nat := 48
@[simp] def KEY_M : Nat := 50
@[simp] def KEY_COMMA : Nat := 51
@[simp] def KEY_DOT : Nat := 52
@[simp] def KEY_RIGHTSHIFT : Nat := 54
@[simp] def KEY_LEFTALT : Nat := 56
@[simp] def KEY_SPACE : Nat := 57
@[simp] def KEY_CAPSLOCK : Nat := 58
@[simp] def KEY_F1 : Nat := 59
@[simp] def KEY_F2 : Nat := 60
@[simp] def KEY_F3 : Nat := 61
@[simp] def KEY_F4 : Nat := 62
@[simp] def KEY_F5 : Nat := 63
@[simp] def KEY_F6 : Nat := 64
@[simp] def KEY_F7 : Nat := 65
@[simp] def KEY_F8 : Nat := 66
@[simp] def KEY_F9 : Nat := 67
@[simp] def KEY_F10 : Nat := 68
@[simp] def KEY_F11 : Nat := 87
@[simp] def KEY_F12 : Nat := 88
@[simp] def KEY_RIGHTCTRL : Nat := 97
@[simp] def KEY_RIGHTALT : Nat := 100
@[simp] def KEY_HOME : Nat := 102
@[simp] def KEY_UP : Nat := 103
@[simp] def KEY_PAGEUP : Nat := 104
@[simp] def KEY_LEFT : Nat := 105
@[simp] def KEY_RIGHT : Nat := 106
@[simp] def KEY_END : Nat := 107
@[simp] def KEY_DOWN : Nat := 108
@[simp] def KEY_PAGEDOWN : Nat := 109
@[simp] def KEY_DELETE : Nat := 111
@[simp] def KEY_MUTE : Nat := 113
@[simp] def KEY_VOLUMEDOWN : Nat := 114
@[simp] def KEY_VOLUMEUP : Nat := 115
@[simp] def KEY_LEFTMETA : Nat := 125
@[simp] def KEY_RIGHTMETA : Nat := 126

/-! ## Constants of the program -/

/-- Size of the `map_space` array. -/
@[simp] def MAX_KEY : Nat := 248

@[simp] def KEY_STROKE_UP : Int := 0
@[simp] def KEY_STROKE_DOWN : Int := 1
@[simp] def KEY_STROKE_REPEAT : Int := 2

/-! ## Data model -/

/-- The `struct timeval` carried by every record. -/
structure timeval where
  tv_sec : Int
  tv_usec : Int
deriving DecidableEq, Repr

/-- The `struct input_event` record: `type` and `code` are 16-bit unsigned,
`value` is a 32-bit signed integer. -/
structure input_event where
  time : timeval
  type : Nat
  code : Nat
  value : Int
deriving DecidableEq, Repr

/-- The three states of `InterceptedKey::State`. -/
inductive State where
  | START
  | MODIFIER_HELD
  | KEY_HELD
deriving DecidableEq, Repr

/-- The base class `InterceptedKey`; its `_state` member is never assigned by
the program and is left out. -/
structure InterceptedKey where
  _intercepted : Nat
  _tapped : Nat
deriving DecidableEq, Repr

/-- The class `InterceptedKeyModifier`. -/
structure InterceptedKeyModifier extends InterceptedKey where
  _modifier : Nat
deriving DecidableEq, Repr

/-- The static `InterceptedKeyModifier::isModifier(int key)`: 1 on the nine
listed key codes, 0 on every other integer. -/
def isModifier (key : Int) : Int :=
  if key = KEY_LEFTSHIFT ∨ key = KEY_RIGHTSHIFT
      ∨ key = KEY_LEFTCTRL ∨ key = KEY_RIGHTCTRL
      ∨ key = KEY_LEFTALT ∨ key = KEY_RIGHTALT
      ∨ key = KEY_LEFTMETA ∨ key = KEY_RIGHTMETA
      ∨ key = KEY_CAPSLOCK then 1
  else 0

/-- The constructor `InterceptedKeyModifier(intercepted, tapped, modifier)`:
throws `invalid_argument` when `isModifier(modifier)` is 0, and otherwise
stores the three codes. -/
def InterceptedKeyModifier.new (intercepted tapped modifier : Nat) :
    Except String InterceptedKeyModifier :=
  if isModifier (Int.ofNat modifier) = 0 then
    Except.error "Specified wrong modifier key"
  else
    Except.ok ⟨⟨intercepted, tapped⟩, modifier⟩

/-- The constant record `_syn`. -/
def _syn : input_event := ⟨⟨0, 0⟩, EV_SYN, SYN_REPORT, KEY_STROKE_UP⟩

/-- One assignment `t[i] = v` on a table. -/
def assign (t : Nat → Nat) (i v : Nat) : Nat → Nat :=
  fun j => if j = i then v else t j

/-- The assignments `map_space[from] = to` of `map_space_init`, in source
order. -/
def map_space_entries : List (Nat × Nat) :=
  [ (KEY_E, KEY_ESC), (KEY_D, KEY_DELETE), (KEY_B, KEY_BACKSPACE),
    (KEY_H, KEY_LEFT), (KEY_J, KEY_DOWN), (KEY_K, KEY_UP), (KEY_L, KEY_RIGHT),
    (KEY_Y, KEY_HOME), (KEY_U, KEY_PAGEDOWN), (KEY_I, KEY_PAGEUP),
    (KEY_O, KEY_END),
    (KEY_1, KEY_F1), (KEY_2, KEY_F2), (KEY_3, KEY_F3), (KEY_4, KEY_F4),
    (KEY_5, KEY_F5), (KEY_6, KEY_F6), (KEY_7, KEY_F7), (KEY_8, KEY_F8),
    (KEY_9, KEY_F9), (KEY_0, KEY_F10), (KEY_MINUS, KEY_F11),
    (KEY_EQUAL, KEY_F12),
    (KEY_M, KEY_MUTE), (KEY_COMMA, KEY_VOLUMEDOWN), (KEY_DOT, KEY_VOLUMEUP) ]

/-- The contents of the global `map_space[MAX_KEY]` after `map_space_init`:
zero-initialised, then the assignments applied in order.  Only indices
below `MAX_KEY` are slots of the array. -/
def map_space (i : Nat) : Nat :=
  (map_space_entries.foldl (fun t p => assign t p.1 p.2) (fun _ => 0)) i

/-- The array read `map_space[i]`: defined only for an index below
`MAX_KEY`. -/
def map_space_at (i : Nat) : Option Nat :=
  if i < MAX_KEY then some (map_space i) else none

/-- The function `write_combo(keycode)`: the batch handed to `write_events`. -/
def write_combo (keycode : Nat) : List input_event :=
  let key_down : input_event := ⟨⟨0, 0⟩, EV_KEY, keycode, KEY_STROKE_DOWN⟩
  let key_up : input_event := ⟨⟨0, 0⟩, EV_KEY, keycode, KEY_STROKE_UP⟩
  [key_down, _syn, key_up]

/-- The function `map(input, direction)`: a copy of the record with the code
read from `map_space` and, unless `direction` is -1, the value replaced. -/
def map (input : input_event) (direction : Int) : Option input_event :=
  match map_space_at input.code with
  | none => none
  | some c =>
    some ⟨input.time, input.type, c, if direction ≠ -1 then direction else input.value⟩

/-! ## The ledger `std::set<int> held_keys`

The set is kept as the list of its members in ascending order, which is the
order in which the program iterates over it. -/

/-- The call `held_keys.insert(c)`. -/
def set_insert (c : Nat) : List Nat → List Nat
  | [] => [c]
  | x :: xs =>
    if c < x then c :: x :: xs
    else if c = x then x :: xs
    else x :: set_insert c xs

/-- The call `held_keys.erase(c)`. -/
def set_erase (c : Nat) (l : List Nat) : List Nat :=
  l.filter (fun x => x ≠ c)

/-- The batch `held_keys_up` built by the loop over `held_keys` when SPACE
is released in state `KEY_HELD`. -/
def held_keys_up : List Nat → Option (List input_event)
  | [] => some []
  | held_key_code :: rest =>
    match map_space_at held_key_code, held_keys_up rest with
    | some c, some evs => some (⟨⟨0, 0⟩, EV_KEY, c, KEY_STROKE_UP⟩ :: evs)
    | _, _ => none

/-! ## The event loop of `main` -/

/-- The local variables of `main` that live across loop iterations. -/
structure MainState where
  held_keys : List Nat
  space_tapped_should_emit : Bool
  caps_tapped_should_emit : Bool
  state_caps : State
  state_space : State
deriving DecidableEq, Repr

/-- The values of the locals when the loop is entered. -/
def main_init : MainState :=
  ⟨[], true, true, State.START, State.START⟩

/-- The record `ctrl_down` written by the CAPSLOCK machine. -/
def ctrl_down : input_event := ⟨⟨0, 0⟩, EV_KEY, KEY_LEFTCTRL, KEY_STROKE_DOWN⟩

/-- The statement `switch (state_caps)`.  The Boolean is true when the
statement ends the iteration with `continue`, false when control goes on to
`switch (state_space)`.  With `key_is_layered` false the right operand of
`caps_tapped_should_emit &=` evaluates to false without reading
`map_space`. -/
def switch_state_caps (s : MainState) (input : input_event) :
    Bool × MainState × List input_event :=
  match s.state_caps with
  | State.START =>
    if input.code = KEY_CAPSLOCK ∧ input.value = KEY_STROKE_DOWN then
      (true, { s with caps_tapped_should_emit := true,
                      state_caps := State.MODIFIER_HELD }, [])
    else
      (false, s, [])
  | State.MODIFIER_HELD =>
    if input.code = KEY_CAPSLOCK ∧ input.value ≠ KEY_STROKE_UP then
      (true, s, [])
    else if input.code = KEY_CAPSLOCK then
      if s.caps_tapped_should_emit then
        (true, { s with caps_tapped_should_emit := false,
                        state_caps := State.START }, write_combo KEY_ESC)
      else
        (true, { s with state_caps := State.START },
          [⟨input.time, input.type, KEY_LEFTCTRL, input.value⟩])
    else if input.value = KEY_STROKE_DOWN then
      let key_is_layered := false
      (false,
        { s with caps_tapped_should_emit :=
                   s.caps_tapped_should_emit && key_is_layered },
        if !key_is_layered && s.caps_tapped_should_emit then [ctrl_down] else [])
    else
      (false, s, [])
  | State.KEY_HELD => (false, s, [])

/-- The statement `switch (state_space)`; `none` when it reads `map_space`
outside the array. -/
def switch_state_space (s : MainState) (input : input_event) :
    Option (MainState × List input_event) :=
  match s.state_space with
  | State.START =>
    if input.code = KEY_SPACE ∧ input.value ≠ KEY_STROKE_UP then
      some ({ s with space_tapped_should_emit := true,
                     state_space := State.MODIFIER_HELD }, [])
    else
      some (s, [input])
  | State.MODIFIER_HELD =>
    if input.code = KEY_SPACE ∧ input.value ≠ KEY_STROKE_UP then
      some (s, [])
    else if input.code = KEY_SPACE then
      if s.space_tapped_should_emit then
        some ({ s with space_tapped_should_emit := false,
                       state_space := State.START }, write_combo KEY_SPACE)
      else
        some ({ s with state_space := State.START }, [])
    else if input.value = KEY_STROKE_DOWN then
      match map_space_at input.code with
      | none => none
      | some m =>
        let tapped :=
          s.space_tapped_should_emit &&
            (m == 0 && input.code != KEY_CAPSLOCK
              && isModifier (Int.ofNat input.code) != 0)
        if m ≠ 0 then
          match map input (-1) with
          | none => none
          | some mapped =>
            some ({ s with space_tapped_should_emit := tapped,
                           held_keys := set_insert input.code s.held_keys,
                           state_space := State.KEY_HELD }, [mapped])
        else
          some ({ s with space_tapped_should_emit := tapped }, [input])
    else
      some (s, [input])
  | State.KEY_HELD =>
    if input.code = KEY_SPACE ∧ input.value ≠ KEY_STROKE_UP then
      some (s, [])
    else if input.value = KEY_STROKE_DOWN ∧ input.code ∈ s.held_keys then
      some (s, [])
    else if input.value = KEY_STROKE_UP then
      if input.code ∈ s.held_keys then
        match map input (-1) with
        | none => none
        | some mapped =>
          let held := set_erase input.code s.held_keys
          some ({ s with held_keys := held,
                         state_space :=
                           if held.isEmpty then State.MODIFIER_HELD
                           else s.state_space }, [mapped])
      else if input.code = KEY_SPACE then
        match held_keys_up s.held_keys with
        | none => none
        | some batch =>
          some ({ s with held_keys := [], state_space := State.START }, batch)
      else
        some (s, [input])
    else
      match map_space_at input.code with
      | none => none
      | some m =>
        if m ≠ 0 then
          match map input (-1) with
          | none => none
          | some mapped =>
            some ({ s with held_keys :=
                             if input.value = KEY_STROKE_DOWN then
                               set_insert input.code s.held_keys
                             else s.held_keys }, [mapped])
        else
          some (s, [input])

/-- One iteration of `while (read_event(input))`: the new locals and the
records written to stdout, in order. -/
def main_step (s : MainState) (input : input_event) :
    Option (MainState × List input_event) :=
  if input.type = EV_MSC ∧ input.code = MSC_SCAN then
    some (s, [])
  else if input.type ≠ EV_KEY then
    some (s, [input])
  else
    match switch_state_caps s input with
    | (true, s1, out1) => some (s1, out1)
    | (false, s1, out1) =>
      match switch_state_space s1 input with
      | none => none
      | some (s2, out2) => some (s2, out1 ++ out2)

/-- The loop run over a finite input: the final locals and everything
written, or `none` if some iteration is undefined. -/
def main_run (s : MainState) : List input_event → Option (MainState × List input_event)
  | [] => some (s, [])
  | input :: rest =>
    match main_step s input with
    | none => none
    | some (s1, out1) =>
      match main_run s1 rest with
      | none => none
      | some (s2, out2) => some (s2, out1 ++ out2)

/-- States the loop can be in after some finite input read from the start. -/
def Reachable (s : MainState) : Prop :=
  ∃ inputs out, main_run main_init inputs = some (s, out)

/-- A KEY record. -/
def key_event (t : timeval) (code : Nat) (value : Int) : input_event :=
  ⟨t, EV_KEY, code, value⟩


/-- The dual-role keys configured by `map_space_init`, each with its tap
code: `InterceptedKeyLayer(KEY_SPACE, KEY_SPACE)` and
`InterceptedKeyModifier(KEY_CAPSLOCK, KEY_ESC, KEY_LEFTCTRL)`. -/
def dual_role_keys : List (Nat × Nat) :=
  [(KEY_SPACE, KEY_SPACE), (KEY_CAPSLOCK, KEY_ESC)]

/-- A code has a key-map entry when it indexes a slot of `map_space` that
holds a non-zero target. -/
def has_map_entry (c : Nat) : Prop :=
  c < MAX_KEY ∧ map_space c ≠ 0

instance (c : Nat) : Decidable (has_map_entry c) := by
  unfold has_map_entry; infer_instance

/-- The table read backwards (target to source), used to show that no two
sources share a target. -/
def unmap_space (i : Nat) : Nat :=
  (map_space_entries.foldl (fun t p => assign t p.2 p.1) (fun _ => 0)) i

/-- The input of the hold-and-layer scenario for one key: DOWN then UP. -/
def press_release (k : Nat × timeval × timeval) : List input_event :=
  [key_event k.2.1 k.1 KEY_STROKE_DOWN, key_event k.2.2 k.1 KEY_STROKE_UP]

/-- The remapped DOWN and UP expected for one key of the scenario. -/
def mapped_press_release (k : Nat × timeval × timeval) : List input_event :=
  [key_event k.2.1 (map_space k.1) KEY_STROKE_DOWN,
   key_event k.2.2 (map_space k.1) KEY_STROKE_UP]

/-- The invariant of the locals: every ledger member has a key-map entry,
the ledger is strictly ascending (it is a set), and it is non-empty exactly
in state `KEY_HELD`. -/
def Inv (s : MainState) : Prop :=
  (∀ c ∈ s.held_keys, has_map_entry c)
    ∧ s.held_keys.Pairwise (fun a b => a < b)
    ∧ (s.held_keys ≠ [] ↔ s.state_space = State.KEY_HELD)

/-- The number of KEY records with the given code and value in an output. -/
def count_key (code : Nat) (value : Int) (out : List input_event) : Nat :=
  out.countP (fun e => decide (e.type = EV_KEY ∧ e.code = code ∧ e.value = value))

/-- The number of KEY DOWN records of a code written minus the number of KEY
UP records of that code written. -/
def down_minus_up (code : Nat) (out : List input_event) : Int :=
  (count_key code KEY_STROKE_DOWN out : Int) - (count_key code KEY_STROKE_UP out : Int)

/-- A code is a key-map target when some assignment of `map_space_init`
stores it in the table. -/
def is_map_target (y : Nat) : Prop :=
  y ∈ map_space_entries.map Prod.snd

instance (y : Nat) : Decidable (is_map_target y) := by
  unfold is_map_target; infer_instance

/-- The kind, code and value of a record, without its timestamp. -/
def kind_code_value (e : input_event) : Nat × Nat × Int :=
  (e.type, e.code, e.value)

/-- The result of a run with the timestamps of the written records
dropped. -/
def untimed (r : Option (MainState × List input_event)) :
    Option (MainState × List (Nat × Nat × Int)) :=
  r.map (fun p => (p.1, p.2.map kind_code_value))

/-- One if LEFTCTRL is held on behalf of CAPSLOCK (`state_caps` is
MODIFIER_HELD and `caps_tapped_should_emit` is false), zero otherwise. -/
def ctrl_held (s : MainState) : Int :=
  if s.state_caps = State.MODIFIER_HELD ∧ s.caps_tapped_should_emit = false then 1
  else 0

/-! ## General facts about the loop -/

theorem main_run_nil (s : MainState) : main_run s [] = some (s, []) := rfl

theorem main_run_cons_of_step {s s1 : MainState} {e : input_event}
    {out1 : List input_event} (h : main_step s e = some (s1, out1))
    (rest : List input_event) :
    main_run s (e :: rest) =
      (main_run s1 rest).map (fun r => (r.1, out1 ++ r.2)) := by
  simp only [main_run, h]
  cases main_run s1 rest <;> rfl

theorem main_run_swallowed {s : MainState} (reps : List input_event)
    (h : ∀ e ∈ reps, main_step s e = some (s, []))
    (rest : List input_event) :
    main_run s (reps ++ rest) = main_run s rest := by
  induction reps with
  | nil => rfl
  | cons e es ih =>
    have he := h e (List.mem_cons_self e es)
    have hes : ∀ x ∈ es, main_step s x = some (s, []) :=
      fun x hx => h x (List.mem_cons_of_mem e hx)
    rw [List.cons_append, main_run_cons_of_step he, ih hes]
    cases main_run s rest <;> simp

theorem main_run_append (s : MainState) (xs ys : List input_event) :
    main_run s (xs ++ ys) =
      match main_run s xs with
      | none => none
      | some (s1, out1) =>
        (main_run s1 ys).map (fun r => (r.1, out1 ++ r.2)) := by
  induction xs generalizing s with
  | nil =>
    simp only [List.nil_append, main_run]
    cases main_run s ys <;> simp
  | cons x xs ih =>
    rw [List.cons_append]
    cases hstep : main_step s x with
    | none => simp [main_run, hstep]
    | some r =>
      obtain ⟨s1, o1⟩ := r
      rw [main_run_cons_of_step hstep, main_run_cons_of_step hstep, ih s1]
      cases main_run s1 xs with
      | none => rfl
      | some r2 =>
        obtain ⟨s2, o2⟩ := r2
        simp only [Option.map_some', Option.map_map]
        cases hys : main_run s2 ys <;> simp [List.append_assoc]

/-! ## Facts about the `map_space` table -/

theorem map_space_sources (c : Nat) (h : map_space c ≠ 0) :
    c ∈ map_space_entries.map Prod.fst := by
  by_contra hc
  apply h
  simp only [map_space_entries, List.map_cons, List.map_nil, List.mem_cons,
    List.not_mem_nil, or_false, not_or] at hc
  simp only [map_space, map_space_entries, List.foldl_cons, List.foldl_nil, assign]
  simp only [hc, if_false]

set_option maxRecDepth 100000 in
theorem map_space_facts (c : Nat) (h : map_space c ≠ 0) :
    c < 248 ∧ c ≠ 57 ∧ c ≠ 58 ∧ map_space c ≠ 29 ∧ map_space c ≠ 57
      ∧ map_space c ≠ 58 ∧ map_space (map_space c) = 0 ∧ map_space c < 248 := by
  have := map_space_sources c h
  simp only [map_space_entries, List.map_cons, List.map_nil, List.mem_cons,
    List.not_mem_nil, or_false] at this
  rcases this with h | h | h | h | h | h | h | h | h | h | h | h | h | h | h | h
    | h | h | h | h | h | h | h | h | h | h <;> subst h <;> decide

set_option maxRecDepth 100000 in
theorem unmap_map_space (c : Nat) (h : map_space c ≠ 0) :
    unmap_space (map_space c) = c := by
  have := map_space_sources c h
  simp only [map_space_entries, List.map_cons, List.map_nil, List.mem_cons,
    List.not_mem_nil, or_false] at this
  rcases this with h | h | h | h | h | h | h | h | h | h | h | h | h | h | h | h
    | h | h | h | h | h | h | h | h | h | h <;> subst h <;> decide

theorem map_space_inj (c d : Nat) (hc : map_space c ≠ 0)
    (h : map_space c = map_space d) : c = d := by
  have hd : map_space d ≠ 0 := h ▸ hc
  rw [← unmap_map_space c hc, ← unmap_map_space d hd, h]

theorem map_space_at_of_entry (c : Nat) (h : map_space c ≠ 0) :
    map_space_at c = some (map_space c) := by
  have := (map_space_facts c h).1
  simp [map_space_at, this]

theorem has_map_entry_iff (c : Nat) : has_map_entry c ↔ map_space c ≠ 0 :=
  ⟨fun h => h.2, fun h => ⟨(map_space_facts c h).1, h⟩⟩

/-- C1. Tap: from the initial state, for each dual-role key K with tap code T,
DOWN(K), then any auto-repeat records of K, then UP(K) writes exactly
DOWN(T), SYN_REPORT, UP(T) and leaves both machines in START. -/
theorem tap_emits_combo (K T : Nat) (hK : (K, T) ∈ dual_role_keys)
    (t1 t2 : timeval) (reps : List input_event)
    (hreps : ∀ e ∈ reps, e.type = EV_KEY ∧ e.code = K ∧ e.value ≠ KEY_STROKE_UP) :
    ∃ s, main_run main_init
          (key_event t1 K KEY_STROKE_DOWN ::
            (reps ++ [key_event t2 K KEY_STROKE_UP]))
        = some (s, [⟨⟨0, 0⟩, EV_KEY, T, KEY_STROKE_DOWN⟩,
                    ⟨⟨0, 0⟩, EV_SYN, SYN_REPORT, 0⟩,
                    ⟨⟨0, 0⟩, EV_KEY, T, KEY_STROKE_UP⟩])
      ∧ s.state_caps = State.START ∧ s.state_space = State.START
      ∧ s.held_keys = [] := by
  simp only [dual_role_keys, List.mem_cons, Prod.mk.injEq, List.mem_singleton,
    List.not_mem_nil, or_false] at hK
  rcases hK with ⟨rfl, rfl⟩ | ⟨rfl, rfl⟩
  · have h1 : main_step main_init (key_event t1 KEY_SPACE KEY_STROKE_DOWN)
        = some (⟨[], true, true, State.START, State.MODIFIER_HELD⟩, []) := by
      simp [main_step, switch_state_caps, switch_state_space, key_event, main_init]
    have h2 : ∀ e ∈ reps,
        main_step ⟨[], true, true, State.START, State.MODIFIER_HELD⟩ e
          = some (⟨[], true, true, State.START, State.MODIFIER_HELD⟩, []) := by
      intro e he
      obtain ⟨ht, hc, hv⟩ := hreps e he
      simp only [KEY_STROKE_UP] at hv
      simp [main_step, switch_state_caps, switch_state_space, ht, hc, hv]
    have h3 : main_step ⟨[], true, true, State.START, State.MODIFIER_HELD⟩
        (key_event t2 KEY_SPACE KEY_STROKE_UP)
        = some (⟨[], false, true, State.START, State.START⟩,
            write_combo KEY_SPACE) := by
      simp [main_step, switch_state_caps, switch_state_space, key_event]
    refine ⟨⟨[], false, true, State.START, State.START⟩, ?_, rfl, rfl, rfl⟩
    rw [main_run_cons_of_step h1, main_run_swallowed reps h2,
      main_run_cons_of_step h3, main_run_nil]
    simp [write_combo, _syn]
  · have h1 : main_step main_init (key_event t1 KEY_CAPSLOCK KEY_STROKE_DOWN)
        = some (⟨[], true, true, State.MODIFIER_HELD, State.START⟩, []) := by
      simp [main_step, switch_state_caps, switch_state_space, key_event, main_init]
    have h2 : ∀ e ∈ reps,
        main_step ⟨[], true, true, State.MODIFIER_HELD, State.START⟩ e
          = some (⟨[], true, true, State.MODIFIER_HELD, State.START⟩, []) := by
      intro e he
      obtain ⟨ht, hc, hv⟩ := hreps e he
      simp only [KEY_STROKE_UP] at hv
      simp [main_step, switch_state_caps, switch_state_space, ht, hc, hv]
    have h3 : main_step ⟨[], true, true, State.MODIFIER_HELD, State.START⟩
        (key_event t2 KEY_CAPSLOCK KEY_STROKE_UP)
        = some (⟨[], true, false, State.START, State.START⟩,
            write_combo KEY_ESC) := by
      simp [main_step, switch_state_caps, switch_state_space, key_event]
    refine ⟨⟨[], true, false, State.START, State.START⟩, ?_, rfl, rfl, rfl⟩
    rw [main_run_cons_of_step h1, main_run_swallowed reps h2,
      main_run_cons_of_step h3, main_run_nil]
    simp [write_combo, _syn]

theorem tap_emits_combo_witness :
    ∃ s, main_run main_init
          (key_event ⟨3, 4⟩ KEY_CAPSLOCK KEY_STROKE_DOWN ::
            ([key_event ⟨3, 9⟩ KEY_CAPSLOCK KEY_STROKE_REPEAT]
              ++ [key_event ⟨5, 6⟩ KEY_CAPSLOCK KEY_STROKE_UP]))
        = some (s, [⟨⟨0, 0⟩, EV_KEY, KEY_ESC, KEY_STROKE_DOWN⟩,
                    ⟨⟨0, 0⟩, EV_SYN, SYN_REPORT, 0⟩,
                    ⟨⟨0, 0⟩, EV_KEY, KEY_ESC, KEY_STROKE_UP⟩])
      ∧ s.state_caps = State.START ∧ s.state_space = State.START
      ∧ s.held_keys = [] :=
  tap_emits_combo KEY_CAPSLOCK KEY_ESC (by decide) ⟨3, 4⟩ ⟨5, 6⟩
    [key_event ⟨3, 9⟩ KEY_CAPSLOCK KEY_STROKE_REPEAT] (by decide)


/-! ## Hold and layer -/

theorem hold_layer_one (b : Bool) (k : Nat × timeval × timeval)
    (hk : has_map_entry k.1) :
    main_run ⟨[], b, true, State.START, State.MODIFIER_HELD⟩ (press_release k)
      = some (⟨[], false, true, State.START, State.MODIFIER_HELD⟩,
          mapped_press_release k) := by
  obtain ⟨X, td, tu⟩ := k
  have hm : map_space X ≠ 0 := hk.2
  obtain ⟨-, h57, h58, -⟩ := map_space_facts X hm
  have hat := map_space_at_of_entry X hm
  have h1 : main_step ⟨[], b, true, State.START, State.MODIFIER_HELD⟩
      (key_event td X KEY_STROKE_DOWN)
      = some (⟨[X], false, true, State.START, State.KEY_HELD⟩,
          [key_event td (map_space X) KEY_STROKE_DOWN]) := by
    simp [main_step, switch_state_caps, switch_state_space, key_event, h57, h58,
      hat, hm, map, set_insert]
  have h2 : main_step ⟨[X], false, true, State.START, State.KEY_HELD⟩
      (key_event tu X KEY_STROKE_UP)
      = some (⟨[], false, true, State.START, State.MODIFIER_HELD⟩,
          [key_event tu (map_space X) KEY_STROKE_UP]) := by
    simp [main_step, switch_state_caps, switch_state_space, key_event, h57, h58,
      hat, map, set_erase]
  simp only [press_release, mapped_press_release]
  rw [main_run_cons_of_step h1, main_run_cons_of_step h2, main_run_nil]
  rfl

theorem hold_layer_many (keys : List (Nat × timeval × timeval))
    (hkeys : ∀ k ∈ keys, has_map_entry k.1) (hne : keys ≠ []) (b : Bool) :
    main_run ⟨[], b, true, State.START, State.MODIFIER_HELD⟩
        (keys.flatMap press_release)
      = some (⟨[], false, true, State.START, State.MODIFIER_HELD⟩,
          keys.flatMap mapped_press_release) := by
  induction keys generalizing b with
  | nil => exact absurd rfl hne
  | cons k ks ih =>
    have hk := hkeys k (List.mem_cons_self k ks)
    have hks : ∀ x ∈ ks, has_map_entry x.1 :=
      fun x hx => hkeys x (List.mem_cons_of_mem k hx)
    simp only [List.flatMap_cons]
    rw [main_run_append, hold_layer_one b k hk]
    by_cases hnil : ks = []
    · subst hnil
      simp [main_run]
    · simp only [ih hks hnil false]
      rfl

/-- C2. Hold and layer: from the initial state, for every non-empty list of
keys with a key-map entry, DOWN(SPACE), then DOWN and UP of each key in turn,
then UP(SPACE) writes exactly the DOWN and UP of each mapped code in that
order (timestamps kept); no record with code SPACE is written, and the layer
machine ends in START with an empty ledger. -/
theorem hold_layer (t0 t1 : timeval) (keys : List (Nat × timeval × timeval))
    (hkeys : ∀ k ∈ keys, has_map_entry k.1) (hne : keys ≠ []) :
    ∃ s, main_run main_init
          (key_event t0 KEY_SPACE KEY_STROKE_DOWN ::
            (keys.flatMap press_release ++ [key_event t1 KEY_SPACE KEY_STROKE_UP]))
        = some (s, keys.flatMap mapped_press_release)
      ∧ (∀ e ∈ keys.flatMap mapped_press_release, e.code ≠ KEY_SPACE)
      ∧ s.state_space = State.START ∧ s.held_keys = [] := by
  have h1 : main_step main_init (key_event t0 KEY_SPACE KEY_STROKE_DOWN)
      = some (⟨[], true, true, State.START, State.MODIFIER_HELD⟩, []) := by
    simp [main_step, switch_state_caps, switch_state_space, key_event, main_init]
  have h3 : main_step ⟨[], false, true, State.START, State.MODIFIER_HELD⟩
      (key_event t1 KEY_SPACE KEY_STROKE_UP)
      = some (⟨[], false, true, State.START, State.START⟩, []) := by
    simp [main_step, switch_state_caps, switch_state_space, key_event]
  refine ⟨⟨[], false, true, State.START, State.START⟩, ?_, ?_, rfl, rfl⟩
  · rw [main_run_cons_of_step h1, main_run_append,
      hold_layer_many keys hkeys hne true]
    simp only [main_run_cons_of_step h3, main_run_nil]
    simp
  · intro e he
    simp only [List.mem_flatMap, mapped_press_release, List.mem_cons,
      List.not_mem_nil, or_false] at he
    obtain ⟨k, hk, hek⟩ := he
    have := (map_space_facts k.1 (hkeys k hk).2).2.2.2.2.1
    rcases hek with rfl | rfl <;> simpa [key_event] using this

theorem hold_layer_witness :
    ∃ s, main_run main_init
          (key_event ⟨1, 0⟩ KEY_SPACE KEY_STROKE_DOWN ::
            ([(KEY_H, (⟨2, 0⟩ : timeval), (⟨3, 0⟩ : timeval)),
              (KEY_J, ⟨4, 0⟩, ⟨5, 0⟩)].flatMap press_release
              ++ [key_event ⟨6, 0⟩ KEY_SPACE KEY_STROKE_UP]))
        = some (s, [key_event ⟨2, 0⟩ KEY_LEFT KEY_STROKE_DOWN,
                    key_event ⟨3, 0⟩ KEY_LEFT KEY_STROKE_UP,
                    key_event ⟨4, 0⟩ KEY_DOWN KEY_STROKE_DOWN,
                    key_event ⟨5, 0⟩ KEY_DOWN KEY_STROKE_UP])
      ∧ (∀ e ∈ [key_event ⟨2, 0⟩ KEY_LEFT KEY_STROKE_DOWN,
                key_event ⟨3, 0⟩ KEY_LEFT KEY_STROKE_UP,
                key_event ⟨4, 0⟩ KEY_DOWN KEY_STROKE_DOWN,
                key_event ⟨5, 0⟩ KEY_DOWN KEY_STROKE_UP],
            e.code ≠ KEY_SPACE)
      ∧ s.state_space = State.START ∧ s.held_keys = [] :=
  hold_layer ⟨1, 0⟩ ⟨6, 0⟩ [(KEY_H, ⟨2, 0⟩, ⟨3, 0⟩), (KEY_J, ⟨4, 0⟩, ⟨5, 0⟩)]
    (by decide) (by decide)

/-! ## Hold and modifier -/

/-- C3 as stated fails at X = SPACE: SPACE is not CAPSLOCK and has no key-map
entry, yet DOWN(CAPSLOCK), DOWN(SPACE), UP(SPACE), UP(CAPSLOCK) writes five
records (the SPACE tap combo with its SYN_REPORT in the middle), not the four
records DOWN(LEFTCTRL), DOWN(SPACE), UP(SPACE), UP(LEFTCTRL). -/
theorem hold_modifier_space_counterexample :
    KEY_SPACE ≠ KEY_CAPSLOCK ∧ ¬ has_map_entry KEY_SPACE
    ∧ (main_run main_init
          [key_event ⟨1, 0⟩ KEY_CAPSLOCK KEY_STROKE_DOWN,
           key_event ⟨2, 0⟩ KEY_SPACE KEY_STROKE_DOWN,
           key_event ⟨3, 0⟩ KEY_SPACE KEY_STROKE_UP,
           key_event ⟨4, 0⟩ KEY_CAPSLOCK KEY_STROKE_UP]).map Prod.snd
        = some [key_event ⟨0, 0⟩ KEY_LEFTCTRL KEY_STROKE_DOWN,
                key_event ⟨0, 0⟩ KEY_SPACE KEY_STROKE_DOWN,
                ⟨⟨0, 0⟩, EV_SYN, SYN_REPORT, 0⟩,
                key_event ⟨0, 0⟩ KEY_SPACE KEY_STROKE_UP,
                key_event ⟨4, 0⟩ KEY_LEFTCTRL KEY_STROKE_UP]
    ∧ (main_run main_init
          [key_event ⟨1, 0⟩ KEY_CAPSLOCK KEY_STROKE_DOWN,
           key_event ⟨2, 0⟩ KEY_SPACE KEY_STROKE_DOWN,
           key_event ⟨3, 0⟩ KEY_SPACE KEY_STROKE_UP,
           key_event ⟨4, 0⟩ KEY_CAPSLOCK KEY_STROKE_UP]).map
        (fun r => r.2.map (fun e => (e.type, e.code, e.value)))
        ≠ some [(EV_KEY, KEY_LEFTCTRL, KEY_STROKE_DOWN),
                (EV_KEY, KEY_SPACE, KEY_STROKE_DOWN),
                (EV_KEY, KEY_SPACE, KEY_STROKE_UP),
                (EV_KEY, KEY_LEFTCTRL, KEY_STROKE_UP)] := by
  decide

/-- C3, amended. Hold and modifier: from the initial state, for every key X
other than CAPSLOCK and SPACE that has no key-map entry, DOWN(CAPSLOCK),
DOWN(X), UP(X), UP(CAPSLOCK) writes exactly DOWN(LEFTCTRL), DOWN(X), UP(X),
UP(LEFTCTRL) in that order. -/
theorem hold_modifier (X : Nat) (hcaps : X ≠ KEY_CAPSLOCK)
    (hspace : X ≠ KEY_SPACE) (_hX : ¬ has_map_entry X) (t1 t2 t3 t4 : timeval) :
    ∃ s, main_run main_init
          [key_event t1 KEY_CAPSLOCK KEY_STROKE_DOWN,
           key_event t2 X KEY_STROKE_DOWN,
           key_event t3 X KEY_STROKE_UP,
           key_event t4 KEY_CAPSLOCK KEY_STROKE_UP]
        = some (s, [key_event ⟨0, 0⟩ KEY_LEFTCTRL KEY_STROKE_DOWN,
                    key_event t2 X KEY_STROKE_DOWN,
                    key_event t3 X KEY_STROKE_UP,
                    key_event t4 KEY_LEFTCTRL KEY_STROKE_UP])
      ∧ s.state_caps = State.START ∧ s.state_space = State.START := by
  simp only [KEY_CAPSLOCK, KEY_SPACE] at hcaps hspace
  have h1 : main_step main_init (key_event t1 KEY_CAPSLOCK KEY_STROKE_DOWN)
      = some (⟨[], true, true, State.MODIFIER_HELD, State.START⟩, []) := by
    simp [main_step, switch_state_caps, switch_state_space, key_event, main_init]
  have h2 : main_step ⟨[], true, true, State.MODIFIER_HELD, State.START⟩
      (key_event t2 X KEY_STROKE_DOWN)
      = some (⟨[], true, false, State.MODIFIER_HELD, State.START⟩,
          [ctrl_down, key_event t2 X KEY_STROKE_DOWN]) := by
    simp [main_step, switch_state_caps, switch_state_space, key_event, hcaps, hspace]
  have h3 : main_step ⟨[], true, false, State.MODIFIER_HELD, State.START⟩
      (key_event t3 X KEY_STROKE_UP)
      = some (⟨[], true, false, State.MODIFIER_HELD, State.START⟩,
          [key_event t3 X KEY_STROKE_UP]) := by
    simp [main_step, switch_state_caps, switch_state_space, key_event, hcaps, hspace]
  have h4 : main_step ⟨[], true, false, State.MODIFIER_HELD, State.START⟩
      (key_event t4 KEY_CAPSLOCK KEY_STROKE_UP)
      = some (⟨[], true, false, State.START, State.START⟩,
          [key_event t4 KEY_LEFTCTRL KEY_STROKE_UP]) := by
    simp [main_step, switch_state_caps, switch_state_space, key_event]
  refine ⟨⟨[], true, false, State.START, State.START⟩, ?_, rfl, rfl⟩
  rw [main_run_cons_of_step h1, main_run_cons_of_step h2,
    main_run_cons_of_step h3, main_run_cons_of_step h4, main_run_nil]
  simp [ctrl_down, key_event]

theorem hold_modifier_witness :
    ∃ s, main_run main_init
          [key_event ⟨1, 0⟩ KEY_CAPSLOCK KEY_STROKE_DOWN,
           key_event ⟨2, 0⟩ KEY_A KEY_STROKE_DOWN,
           key_event ⟨3, 0⟩ KEY_A KEY_STROKE_UP,
           key_event ⟨4, 0⟩ KEY_CAPSLOCK KEY_STROKE_UP]
        = some (s, [key_event ⟨0, 0⟩ KEY_LEFTCTRL KEY_STROKE_DOWN,
                    key_event ⟨2, 0⟩ KEY_A KEY_STROKE_DOWN,
                    key_event ⟨3, 0⟩ KEY_A KEY_STROKE_UP,
                    key_event ⟨4, 0⟩ KEY_LEFTCTRL KEY_STROKE_UP])
      ∧ s.state_caps = State.START ∧ s.state_space = State.START :=
  hold_modifier KEY_A (by decide) (by decide) (by decide) ⟨1, 0⟩ ⟨2, 0⟩ ⟨3, 0⟩ ⟨4, 0⟩

/-! ## Records that are not keystrokes, and auto-repeat of a held dual-role key -/

/-- C7. Non-keystroke records: for every state and every record whose type is
not EV_KEY, the iteration leaves all locals unchanged; it writes nothing when
the record is an EV_MSC / MSC_SCAN echo and otherwise writes exactly that
record, unmodified. -/
theorem non_key_event_forwarded (s : MainState) (e : input_event)
    (h : e.type ≠ EV_KEY) :
    main_step s e
      = some (s, if e.type = EV_MSC ∧ e.code = MSC_SCAN then [] else [e]) := by
  unfold main_step
  by_cases hm : e.type = EV_MSC ∧ e.code = MSC_SCAN
  · rw [if_pos hm, if_pos hm]
  · rw [if_neg hm, if_neg hm, if_pos h]

theorem non_key_event_forwarded_witness :
    main_step ⟨[KEY_H], false, true, State.MODIFIER_HELD, State.KEY_HELD⟩
        ⟨⟨7, 8⟩, EV_SYN, SYN_REPORT, 0⟩
      = some (⟨[KEY_H], false, true, State.MODIFIER_HELD, State.KEY_HELD⟩,
          if EV_SYN = EV_MSC ∧ SYN_REPORT = MSC_SCAN then []
          else [⟨⟨7, 8⟩, EV_SYN, SYN_REPORT, 0⟩]) :=
  non_key_event_forwarded
    ⟨[KEY_H], false, true, State.MODIFIER_HELD, State.KEY_HELD⟩
    ⟨⟨7, 8⟩, EV_SYN, SYN_REPORT, 0⟩ (by decide)

/-- C8. Repeat suppression: in every state, a KEY record with value REPEAT
whose code is CAPSLOCK while `state_caps` is MODIFIER_HELD, or SPACE while
`state_space` is MODIFIER_HELD or KEY_HELD, writes nothing and leaves all
locals unchanged. -/
theorem repeat_of_held_key_swallowed (s : MainState) (t : timeval) (K : Nat)
    (h : (K = KEY_CAPSLOCK ∧ s.state_caps = State.MODIFIER_HELD)
       ∨ (K = KEY_SPACE ∧ (s.state_space = State.MODIFIER_HELD
            ∨ s.state_space = State.KEY_HELD))) :
    main_step s (key_event t K KEY_STROKE_REPEAT) = some (s, []) := by
  obtain ⟨held, st, ct, sc, ss⟩ := s
  rcases h with ⟨rfl, hc⟩ | ⟨rfl, hs⟩
  · simp only at hc
    subst hc
    simp [main_step, switch_state_caps, key_event]
  · simp only at hs
    rcases hs with rfl | rfl <;> cases sc <;>
      simp [main_step, switch_state_caps, switch_state_space, key_event]

theorem repeat_of_held_key_swallowed_witness :
    main_step ⟨[KEY_H], false, true, State.MODIFIER_HELD, State.KEY_HELD⟩
        (key_event ⟨7, 8⟩ KEY_SPACE KEY_STROKE_REPEAT)
      = some (⟨[KEY_H], false, true, State.MODIFIER_HELD, State.KEY_HELD⟩, []) :=
  repeat_of_held_key_swallowed
    ⟨[KEY_H], false, true, State.MODIFIER_HELD, State.KEY_HELD⟩ ⟨7, 8⟩ KEY_SPACE
    (by decide)

/-! ## Construction of the modifier machine -/

/-- C10. Modifier validation: the constructor of `InterceptedKeyModifier`
fails exactly when `isModifier` rejects the modifier code; `isModifier`
accepts exactly LEFTSHIFT, RIGHTSHIFT, LEFTCTRL, RIGHTCTRL, LEFTALT, RIGHTALT,
LEFTMETA, RIGHTMETA and CAPSLOCK; on success the machine stores the given
intercepted, tap and modifier codes. -/
theorem modifier_validation (intercepted tapped modifier : Nat) :
    ((∃ msg, InterceptedKeyModifier.new intercepted tapped modifier
          = Except.error msg)
        ↔ isModifier (Int.ofNat modifier) = 0)
    ∧ (∀ key : Int, isModifier key ≠ 0 ↔
        key ∈ [(KEY_LEFTSHIFT : Int), KEY_RIGHTSHIFT, KEY_LEFTCTRL,
               KEY_RIGHTCTRL, KEY_LEFTALT, KEY_RIGHTALT, KEY_LEFTMETA,
               KEY_RIGHTMETA, KEY_CAPSLOCK])
    ∧ (isModifier (Int.ofNat modifier) ≠ 0 →
        ∃ m, InterceptedKeyModifier.new intercepted tapped modifier = Except.ok m
          ∧ m._intercepted = intercepted ∧ m._tapped = tapped
          ∧ m._modifier = modifier) := by
  refine ⟨?_, ?_, ?_⟩
  · unfold InterceptedKeyModifier.new
    by_cases h : isModifier (Int.ofNat modifier) = 0
    · rw [if_pos h]
      exact ⟨fun _ => h, fun _ => ⟨_, rfl⟩⟩
    · rw [if_neg h]
      constructor
      · rintro ⟨msg, hmsg⟩
        cases hmsg
      · intro h0
        exact absurd h0 h
  · intro key
    unfold isModifier
    by_cases h : key = KEY_LEFTSHIFT ∨ key = KEY_RIGHTSHIFT
      ∨ key = KEY_LEFTCTRL ∨ key = KEY_RIGHTCTRL
      ∨ key = KEY_LEFTALT ∨ key = KEY_RIGHTALT
      ∨ key = KEY_LEFTMETA ∨ key = KEY_RIGHTMETA
      ∨ key = KEY_CAPSLOCK
    · rw [if_pos h]
      simpa using h
    · rw [if_neg h]
      simpa using h
  · intro h
    refine ⟨⟨⟨intercepted, tapped⟩, modifier⟩, ?_, rfl, rfl, rfl⟩
    unfold InterceptedKeyModifier.new
    rw [if_neg h]

theorem modifier_validation_witness :
    ∃ m, InterceptedKeyModifier.new KEY_CAPSLOCK KEY_ESC KEY_LEFTCTRL = Except.ok m
      ∧ m._intercepted = KEY_CAPSLOCK ∧ m._tapped = KEY_ESC
      ∧ m._modifier = KEY_LEFTCTRL :=
  (modifier_validation KEY_CAPSLOCK KEY_ESC KEY_LEFTCTRL).2.2 (by decide)


/-! ## The ledger and the invariant of reachable states -/

theorem mem_set_insert (c x : Nat) (l : List Nat) :
    x ∈ set_insert c l ↔ x = c ∨ x ∈ l := by
  induction l with
  | nil => simp [set_insert]
  | cons y ys ih =>
    unfold set_insert
    split_ifs with h1 h2
    · simp
    · subst h2
      simp
    · simp only [List.mem_cons, ih]
      tauto

theorem set_insert_ne_nil (c : Nat) (l : List Nat) : set_insert c l ≠ [] := by
  intro h
  have : c ∈ set_insert c l := (mem_set_insert c c l).2 (Or.inl rfl)
  rw [h] at this
  exact List.not_mem_nil c this

theorem set_insert_pairwise (c : Nat) (l : List Nat)
    (h : l.Pairwise (fun a b => a < b)) :
    (set_insert c l).Pairwise (fun a b => a < b) := by
  induction l with
  | nil => simp [set_insert]
  | cons y ys ih =>
    rw [List.pairwise_cons] at h
    unfold set_insert
    split_ifs with h1 h2
    · refine List.pairwise_cons.2 ⟨?_, List.pairwise_cons.2 h⟩
      intro z hz
      rcases List.mem_cons.1 hz with rfl | hz
      · exact h1
      · exact lt_trans h1 (h.1 z hz)
    · exact List.pairwise_cons.2 h
    · refine List.pairwise_cons.2 ⟨?_, ih h.2⟩
      intro z hz
      rcases (mem_set_insert c z ys).1 hz with rfl | hz
      · omega
      · exact h.1 z hz

theorem mem_set_erase (c x : Nat) (l : List Nat) :
    x ∈ set_erase c l ↔ x ∈ l ∧ x ≠ c := by
  simp [set_erase]

theorem set_erase_pairwise (c : Nat) (l : List Nat)
    (h : l.Pairwise (fun a b => a < b)) :
    (set_erase c l).Pairwise (fun a b => a < b) :=
  List.Pairwise.filter _ h

theorem switch_state_caps_frame (s : MainState) (e : input_event) :
    (switch_state_caps s e).2.1.held_keys = s.held_keys
      ∧ (switch_state_caps s e).2.1.state_space = s.state_space
      ∧ (switch_state_caps s e).2.1.space_tapped_should_emit
          = s.space_tapped_should_emit := by
  obtain ⟨held, st, ct, sc, ss⟩ := s
  cases sc <;> simp only [switch_state_caps] <;> (try split_ifs) <;> simp

theorem Inv_of_caps {s : MainState} (e : input_event) (h : Inv s) :
    Inv (switch_state_caps s e).2.1 := by
  obtain ⟨h1, h2, h3⟩ := switch_state_caps_frame s e
  unfold Inv
  rw [h1, h2]
  exact h

theorem map_space_at_some {c m : Nat} (h : map_space_at c = some m) :
    m = map_space c ∧ c < MAX_KEY := by
  unfold map_space_at at h
  split_ifs at h with hlt
  exact ⟨(Option.some.inj h).symm, hlt⟩

theorem map_neg_one (e : input_event) :
    map e (-1) =
      match map_space_at e.code with
      | none => none
      | some c => some ⟨e.time, e.type, c, e.value⟩ := by
  unfold map
  cases map_space_at e.code <;> simp

theorem ledger_nil_of_Inv {s : MainState} (hs : Inv s)
    (h : s.state_space ≠ State.KEY_HELD) : s.held_keys = [] := by
  by_contra hc
  exact h (hs.2.2.1 hc)

theorem switch_state_space_Inv {s s1 : MainState} {e : input_event}
    {out : List input_event} (hs : Inv s)
    (h : switch_state_space s e = some (s1, out)) : Inv s1 := by
  obtain ⟨held, st, ct, sc, ss⟩ := s
  cases ss
  · -- START
    have hnil : held = [] := ledger_nil_of_Inv hs (by simp)
    subst hnil
    simp only [switch_state_space] at h
    split_ifs at h <;> cases h <;> simp [Inv]
  · -- MODIFIER_HELD
    have hnil : held = [] := ledger_nil_of_Inv hs (by simp)
    subst hnil
    simp only [switch_state_space, map_neg_one] at h
    by_cases c1 : e.code = KEY_SPACE ∧ e.value ≠ KEY_STROKE_UP
    · rw [if_pos c1] at h; cases h; simp [Inv]
    rw [if_neg c1] at h
    by_cases c2 : e.code = KEY_SPACE
    · rw [if_pos c2] at h
      split_ifs at h <;> cases h <;> simp [Inv]
    rw [if_neg c2] at h
    by_cases c3 : e.value = KEY_STROKE_DOWN
    · rw [if_pos c3] at h
      cases hat : map_space_at e.code with
      | none => simp [hat] at h
      | some m =>
        have hm := map_space_at_some hat
        simp only [hat] at h
        by_cases hz : m ≠ 0
        · rw [if_pos hz] at h
          cases h
          refine ⟨?_, ?_, ?_⟩
          · intro c hc
            simp only [set_insert, List.mem_singleton] at hc
            subst hc
            exact ⟨hm.2, hm.1 ▸ hz⟩
          · simp [set_insert]
          · simp [set_insert]
        · rw [if_neg hz] at h
          cases h; simp [Inv]
    · rw [if_neg c3] at h; cases h; simp [Inv]
  · -- KEY_HELD
    have hmem : ∀ c ∈ held, has_map_entry c := hs.1
    have hsorted : held.Pairwise (fun a b => a < b) := hs.2.1
    simp only [switch_state_space, map_neg_one] at h
    by_cases c1 : e.code = KEY_SPACE ∧ e.value ≠ KEY_STROKE_UP
    · rw [if_pos c1] at h; cases h; exact hs
    rw [if_neg c1] at h
    by_cases c2 : e.value = KEY_STROKE_DOWN ∧ e.code ∈ held
    · rw [if_pos c2] at h; cases h; exact hs
    rw [if_neg c2] at h
    by_cases c3 : e.value = KEY_STROKE_UP
    · rw [if_pos c3] at h
      by_cases c4 : e.code ∈ held
      · rw [if_pos c4] at h
        cases hat : map_space_at e.code with
        | none => simp [hat] at h
        | some m =>
          simp only [hat, Option.some.injEq, Prod.mk.injEq] at h
          obtain ⟨rfl, -⟩ := h
          refine ⟨?_, set_erase_pairwise _ _ hsorted, ?_⟩
          · intro c hc
            exact hmem c ((mem_set_erase _ _ _).1 hc).1
          · simp only
            cases hl : set_erase e.code held with
            | nil => simp
            | cons a as => simp
      · rw [if_neg c4] at h
        by_cases c5 : e.code = KEY_SPACE
        · rw [if_pos c5] at h
          cases hup : held_keys_up held with
          | none => simp [hup] at h
          | some batch =>
            simp only [hup, Option.some.injEq, Prod.mk.injEq] at h
            obtain ⟨rfl, -⟩ := h
            simp [Inv]
        · rw [if_neg c5] at h; cases h; exact hs
    · rw [if_neg c3] at h
      cases hat : map_space_at e.code with
      | none => simp [hat] at h
      | some m =>
        have hm := map_space_at_some hat
        simp only [hat] at h
        by_cases hz : m ≠ 0
        · rw [if_pos hz] at h
          simp only [Option.some.injEq, Prod.mk.injEq] at h
          obtain ⟨rfl, -⟩ := h
          by_cases hd : e.value = KEY_STROKE_DOWN
          · simp only [if_pos hd]
            refine ⟨?_, set_insert_pairwise _ _ hsorted, ?_⟩
            · intro c hc
              rcases (mem_set_insert _ _ _).1 hc with rfl | hc
              · exact ⟨hm.2, hm.1 ▸ hz⟩
              · exact hmem c hc
            · simp [set_insert_ne_nil]
          · simp only [if_neg hd]
            exact hs
        · rw [if_neg hz] at h
          cases h; exact hs

theorem main_step_Inv {s s1 : MainState} {e : input_event}
    {out : List input_event} (hs : Inv s)
    (h : main_step s e = some (s1, out)) : Inv s1 := by
  unfold main_step at h
  split_ifs at h
  · cases h; exact hs
  · cases h; exact hs
  · have hcaps := Inv_of_caps e hs
    rcases hsw : switch_state_caps s e with ⟨b, s0, o0⟩
    rw [hsw] at hcaps h
    cases b
    · simp only at h
      cases hsp : switch_state_space s0 e with
      | none => simp [hsp] at h
      | some r =>
        obtain ⟨s2, o2⟩ := r
        simp only [hsp, Option.some.injEq, Prod.mk.injEq] at h
        obtain ⟨rfl, -⟩ := h
        exact switch_state_space_Inv hcaps hsp
    · simp only [Option.some.injEq, Prod.mk.injEq] at h
      obtain ⟨rfl, -⟩ := h
      exact hcaps

theorem main_run_Inv {s s1 : MainState} {inputs out : List input_event}
    (hs : Inv s) (h : main_run s inputs = some (s1, out)) : Inv s1 := by
  induction inputs generalizing s out with
  | nil =>
    simp only [main_run, Option.some.injEq, Prod.mk.injEq] at h
    exact h.1 ▸ hs
  | cons e es ih =>
    cases hstep : main_step s e with
    | none => simp [main_run, hstep] at h
    | some r =>
      obtain ⟨s0, o0⟩ := r
      rw [main_run_cons_of_step hstep] at h
      cases hrun : main_run s0 es with
      | none => simp [hrun] at h
      | some r2 =>
        obtain ⟨s2, o2⟩ := r2
        simp only [hrun, Option.map_some', Option.some.injEq, Prod.mk.injEq] at h
        obtain ⟨rfl, -⟩ := h
        exact ih (main_step_Inv hs hstep) hrun

theorem Inv_main_init : Inv main_init := by
  simp [Inv, main_init]

theorem Reachable.inv {s : MainState} (h : Reachable s) : Inv s := by
  obtain ⟨inputs, out, hrun⟩ := h
  exact main_run_Inv Inv_main_init hrun


/-! ## Forced flush -/

theorem held_keys_up_of_entries (held : List Nat)
    (h : ∀ c ∈ held, has_map_entry c) :
    held_keys_up held
      = some (held.map (fun c => key_event ⟨0, 0⟩ (map_space c) KEY_STROKE_UP)) := by
  induction held with
  | nil => rfl
  | cons c cs ih =>
    have hc := h c (List.mem_cons_self c cs)
    have hcs : ∀ x ∈ cs, has_map_entry x :=
      fun x hx => h x (List.mem_cons_of_mem c hx)
    simp [held_keys_up, map_space_at_of_entry c hc.2, ih hcs, key_event]

theorem main_step_flush (s : MainState) (hinv : Inv s)
    (hs : s.state_space = State.KEY_HELD) (t : timeval) :
    main_step s (key_event t KEY_SPACE KEY_STROKE_UP)
      = some ({ s with held_keys := [], state_space := State.START },
          s.held_keys.map
            (fun c => key_event ⟨0, 0⟩ (map_space c) KEY_STROKE_UP)) := by
  obtain ⟨held, st, ct, sc, ss⟩ := s
  simp only at hs
  subst hs
  have hmem : ∀ c ∈ held, has_map_entry c := hinv.1
  have hsp : KEY_SPACE ∉ held := fun hin => (hmem _ hin).2 (by decide)
  simp only [KEY_SPACE] at hsp
  have hup := held_keys_up_of_entries held hmem
  cases sc <;>
    simp [main_step, switch_state_caps, switch_state_space, key_event, hsp, hup]

/-- C4. No stuck key (forced flush): in every reachable state with
`state_space` KEY_HELD and N codes in the ledger, UP(SPACE) writes exactly N
records, one KEY UP with the mapped code for each ledger member (each member
occurs once), empties the ledger and sets `state_space` to START. -/
theorem forced_flush (s : MainState) (hr : Reachable s)
    (hs : s.state_space = State.KEY_HELD) (t : timeval) :
    ∃ out, main_step s (key_event t KEY_SPACE KEY_STROKE_UP)
        = some ({ s with held_keys := [], state_space := State.START }, out)
      ∧ out = s.held_keys.map
          (fun c => (⟨⟨0, 0⟩, EV_KEY, map_space c, KEY_STROKE_UP⟩ : input_event))
      ∧ out.length = s.held_keys.length
      ∧ s.held_keys.Nodup := by
  refine ⟨_, main_step_flush s hr.inv hs t, rfl, by simp, ?_⟩
  exact hr.inv.2.1.imp (fun hab => Nat.ne_of_lt hab)

theorem forced_flush_witness :
    ∃ out, main_step ⟨[KEY_H, KEY_J], false, true, State.START, State.KEY_HELD⟩
          (key_event ⟨9, 0⟩ KEY_SPACE KEY_STROKE_UP)
        = some (⟨[], false, true, State.START, State.START⟩, out)
      ∧ out = [KEY_H, KEY_J].map
          (fun c => (⟨⟨0, 0⟩, EV_KEY, map_space c, KEY_STROKE_UP⟩ : input_event))
      ∧ out.length = [KEY_H, KEY_J].length
      ∧ [KEY_H, KEY_J].Nodup :=
  forced_flush ⟨[KEY_H, KEY_J], false, true, State.START, State.KEY_HELD⟩
    ⟨[key_event ⟨1, 0⟩ KEY_SPACE KEY_STROKE_DOWN,
      key_event ⟨2, 0⟩ KEY_J KEY_STROKE_DOWN,
      key_event ⟨3, 0⟩ KEY_H KEY_STROKE_DOWN],
     [key_event ⟨2, 0⟩ KEY_DOWN KEY_STROKE_DOWN,
      key_event ⟨3, 0⟩ KEY_LEFT KEY_STROKE_DOWN], by decide⟩
    rfl ⟨9, 0⟩

/-! ## The SYN_REPORT frame marker -/

/-- C9 as stated fails: the last record of the tap combo is the KEY UP, not
the SYN_REPORT, and the batch written when SPACE is released with H in the
ledger is the single KEY UP(LEFT) with no SYN record at all. -/
theorem frame_marker_counterexample :
    (write_combo KEY_ESC).getLast?
        = some ⟨⟨0, 0⟩, EV_KEY, KEY_ESC, KEY_STROKE_UP⟩
    ∧ (write_combo KEY_ESC).getLast? ≠ some ⟨⟨0, 0⟩, EV_SYN, SYN_REPORT, 0⟩
    ∧ (main_step ⟨[KEY_H], false, true, State.START, State.KEY_HELD⟩
          (key_event ⟨9, 0⟩ KEY_SPACE KEY_STROKE_UP)).map Prod.snd
        = some [⟨⟨0, 0⟩, EV_KEY, KEY_LEFT, KEY_STROKE_UP⟩]
    ∧ main_run main_init
          [key_event ⟨1, 0⟩ KEY_SPACE KEY_STROKE_DOWN,
           key_event ⟨2, 0⟩ KEY_H KEY_STROKE_DOWN]
        = some (⟨[KEY_H], false, true, State.START, State.KEY_HELD⟩,
            [key_event ⟨2, 0⟩ KEY_LEFT KEY_STROKE_DOWN]) := by
  decide

/-- C9, amended. Frame marker: the tap combo written by `write_combo` is
DOWN, SYN_REPORT with value 0, UP, so its SYN record stands between the two
KEY records and the KEY UP is last; the batch written when SPACE is released
in a reachable KEY_HELD state consists of KEY UP records only and carries no
SYN record. -/
theorem frame_marker (keycode : Nat) (s : MainState) (hr : Reachable s)
    (hs : s.state_space = State.KEY_HELD) (t : timeval) :
    write_combo keycode
        = [⟨⟨0, 0⟩, EV_KEY, keycode, KEY_STROKE_DOWN⟩,
           ⟨⟨0, 0⟩, EV_SYN, SYN_REPORT, 0⟩,
           ⟨⟨0, 0⟩, EV_KEY, keycode, KEY_STROKE_UP⟩]
    ∧ ∃ s1 out, main_step s (key_event t KEY_SPACE KEY_STROKE_UP) = some (s1, out)
        ∧ ∀ e ∈ out, e.type = EV_KEY ∧ e.value = KEY_STROKE_UP ∧ e.type ≠ EV_SYN := by
  refine ⟨rfl, _, _, main_step_flush s hr.inv hs t, ?_⟩
  intro e he
  simp only [List.mem_map] at he
  obtain ⟨c, -, rfl⟩ := he
  simp [key_event]

theorem frame_marker_witness :
    write_combo KEY_SPACE
        = [⟨⟨0, 0⟩, EV_KEY, KEY_SPACE, KEY_STROKE_DOWN⟩,
           ⟨⟨0, 0⟩, EV_SYN, SYN_REPORT, 0⟩,
           ⟨⟨0, 0⟩, EV_KEY, KEY_SPACE, KEY_STROKE_UP⟩]
    ∧ ∃ s1 out, main_step ⟨[KEY_H], false, true, State.START, State.KEY_HELD⟩
          (key_event ⟨9, 0⟩ KEY_SPACE KEY_STROKE_UP) = some (s1, out)
        ∧ ∀ e ∈ out, e.type = EV_KEY ∧ e.value = KEY_STROKE_UP ∧ e.type ≠ EV_SYN :=
  frame_marker KEY_SPACE ⟨[KEY_H], false, true, State.START, State.KEY_HELD⟩
    ⟨[key_event ⟨1, 0⟩ KEY_SPACE KEY_STROKE_DOWN,
      key_event ⟨2, 0⟩ KEY_H KEY_STROKE_DOWN],
     [key_event ⟨2, 0⟩ KEY_LEFT KEY_STROKE_DOWN], by decide⟩
    rfl ⟨9, 0⟩


/-! ## The ledger matches what was written downstream -/

theorem down_minus_up_nil (Y : Nat) : down_minus_up Y [] = 0 := by
  simp [down_minus_up, count_key]

theorem down_minus_up_append (Y : Nat) (a b : List input_event) :
    down_minus_up Y (a ++ b) = down_minus_up Y a + down_minus_up Y b := by
  simp only [down_minus_up, count_key, List.countP_append, Nat.cast_add]
  ring

theorem down_minus_up_cons (Y : Nat) (e : input_event) (l : List input_event) :
    down_minus_up Y (e :: l) = down_minus_up Y [e] + down_minus_up Y l :=
  down_minus_up_append Y [e] l

theorem down_minus_up_other_code (Y : Nat) (e : input_event)
    (h : e.type = EV_KEY → e.code ≠ Y) : down_minus_up Y [e] = 0 := by
  have h2 : ¬ (e.type = EV_KEY ∧ e.code = Y ∧ e.value = KEY_STROKE_DOWN) :=
    fun hh => h hh.1 hh.2.1
  have h3 : ¬ (e.type = EV_KEY ∧ e.code = Y ∧ e.value = KEY_STROKE_UP) :=
    fun hh => h hh.1 hh.2.1
  simp only [EV_KEY, KEY_STROKE_DOWN, KEY_STROKE_UP] at h2 h3
  simp [down_minus_up, count_key, List.countP_cons, h2, h3]

theorem down_minus_up_key (Y : Nat) (t : timeval) (c : Nat) (v : Int) :
    down_minus_up Y [⟨t, EV_KEY, c, v⟩]
      = if c = Y then
          (if v = KEY_STROKE_DOWN then 1 else if v = KEY_STROKE_UP then -1 else 0)
        else 0 := by
  by_cases hc : c = Y
  · by_cases hd : v = 1
    · subst hd; simp [down_minus_up, count_key, List.countP_cons, hc]
    · by_cases hu : v = 0
      · subst hu; simp [down_minus_up, count_key, List.countP_cons, hc]
      · simp [down_minus_up, count_key, List.countP_cons, hc, hd, hu]
  · simp [down_minus_up, count_key, List.countP_cons, hc]

theorem down_minus_up_write_combo (Y k : Nat) :
    down_minus_up Y (write_combo k) = 0 := by
  by_cases hk : k = Y
  · simp [write_combo, _syn, down_minus_up, count_key, List.countP_cons, hk]
  · simp [write_combo, _syn, down_minus_up, count_key, List.countP_cons, hk]

theorem switch_state_caps_balance (s : MainState) (e : input_event) (Y : Nat)
    (hY : Y ≠ KEY_LEFTCTRL) :
    down_minus_up Y (switch_state_caps s e).2.2 = 0 := by
  have hY2 : KEY_LEFTCTRL ≠ Y := fun h => hY h.symm
  obtain ⟨held, st, ct, sc, ss⟩ := s
  cases sc
  · simp only [switch_state_caps]
    split_ifs <;> exact down_minus_up_nil Y
  · simp only [switch_state_caps]
    split_ifs
    · exact down_minus_up_nil Y
    · exact down_minus_up_write_combo Y _
    · exact down_minus_up_other_code Y _ (fun _ => hY2)
    · exact down_minus_up_other_code Y _ (fun _ => hY2)
    · exact down_minus_up_nil Y
    · exact down_minus_up_nil Y
  · exact down_minus_up_nil Y

theorem down_minus_up_flush (c : Nat) (hc : map_space c ≠ 0) (held : List Nat)
    (hnd : held.Pairwise (fun a b => a < b)) :
    down_minus_up (map_space c)
        (held.map (fun x => key_event ⟨0, 0⟩ (map_space x) KEY_STROKE_UP))
      = - (if c ∈ held then 1 else 0) := by
  induction held with
  | nil => simp [down_minus_up_nil]
  | cons x xs ih =>
    rw [List.pairwise_cons] at hnd
    rw [List.map_cons, down_minus_up_cons, ih hnd.2]
    simp only [key_event, down_minus_up_key]
    by_cases hx : x = c
    · subst hx
      have hnot : x ∉ xs := fun hin => Nat.lt_irrefl _ (hnd.1 x hin)
      simp [hnot]
    · have hne : map_space x ≠ map_space c :=
        fun heq => hx (map_space_inj c x hc heq.symm).symm
      have hne2 : c ≠ x := fun h => hx h.symm
      simp [hne, hne2]

theorem switch_state_space_balance {s s1 : MainState} {e : input_event}
    {out : List input_event} (hs : Inv s) (hkey : e.type = EV_KEY)
    (he : ∀ c, has_map_entry c → e.code ≠ map_space c)
    (h : switch_state_space s e = some (s1, out))
    (c : Nat) (hc : has_map_entry c) :
    down_minus_up (map_space c) out
      = (if c ∈ s1.held_keys then 1 else 0) - (if c ∈ s.held_keys then 1 else 0) := by
  have hfw : down_minus_up (map_space c) [e] = 0 :=
    down_minus_up_other_code _ e (fun _ => he c hc)
  have hcm : map_space c ≠ 0 := hc.2
  have hmapped : ∀ v : Int, down_minus_up (map_space c)
      [⟨e.time, e.type, map_space e.code, v⟩]
      = if e.code = c then
          (if v = KEY_STROKE_DOWN then 1 else if v = KEY_STROKE_UP then -1 else 0)
        else 0 := by
    intro v
    rw [hkey, down_minus_up_key]
    by_cases hec : e.code = c
    · simp [hec]
    · have : map_space e.code ≠ map_space c :=
        fun heq => hec (map_space_inj c e.code hcm heq.symm).symm
      simp [hec, this]
  obtain ⟨held, st, ct, sc, ss⟩ := s
  cases ss
  · -- START
    simp only [switch_state_space] at h
    split_ifs at h <;> cases h <;> simp [down_minus_up_nil, hfw]
  · -- MODIFIER_HELD
    have hnil : held = [] := ledger_nil_of_Inv hs (by simp)
    subst hnil
    simp only [switch_state_space, map_neg_one] at h
    by_cases c1 : e.code = KEY_SPACE ∧ e.value ≠ KEY_STROKE_UP
    · rw [if_pos c1] at h; cases h; simp [down_minus_up_nil]
    rw [if_neg c1] at h
    by_cases c2 : e.code = KEY_SPACE
    · rw [if_pos c2] at h
      split_ifs at h <;> cases h <;>
        simp [down_minus_up_nil, down_minus_up_write_combo]
    rw [if_neg c2] at h
    by_cases c3 : e.value = KEY_STROKE_DOWN
    · rw [if_pos c3] at h
      cases hat : map_space_at e.code with
      | none => simp [hat] at h
      | some m =>
        have hm := map_space_at_some hat
        simp only [hat] at h
        by_cases hz : m ≠ 0
        · rw [if_pos hz] at h
          cases h
          rw [hm.1, hmapped, c3]
          by_cases hec : e.code = c
          · simp [hec, set_insert]
          · have : c ≠ e.code := fun h => hec h.symm
            simp [hec, set_insert, this]
        · rw [if_neg hz] at h
          cases h; simp [hfw]
    · rw [if_neg c3] at h; cases h; simp [hfw]
  · -- KEY_HELD
    have hmem : ∀ x ∈ held, has_map_entry x := hs.1
    have hsorted : held.Pairwise (fun a b => a < b) := hs.2.1
    simp only [switch_state_space, map_neg_one] at h
    by_cases c1 : e.code = KEY_SPACE ∧ e.value ≠ KEY_STROKE_UP
    · rw [if_pos c1] at h; cases h; simp [down_minus_up_nil]
    rw [if_neg c1] at h
    by_cases c2 : e.value = KEY_STROKE_DOWN ∧ e.code ∈ held
    · rw [if_pos c2] at h; cases h; simp [down_minus_up_nil]
    rw [if_neg c2] at h
    by_cases c3 : e.value = KEY_STROKE_UP
    · rw [if_pos c3] at h
      by_cases c4 : e.code ∈ held
      · rw [if_pos c4] at h
        cases hat : map_space_at e.code with
        | none => simp [hat] at h
        | some m =>
          have hm := map_space_at_some hat
          simp only [hat, Option.some.injEq, Prod.mk.injEq] at h
          obtain ⟨rfl, rfl⟩ := h
          rw [hm.1, hmapped, c3]
          simp only [mem_set_erase]
          by_cases hec : e.code = c
          · subst hec
            simp [c4]
          · have : c ≠ e.code := fun h => hec h.symm
            simp [hec, this]
      · rw [if_neg c4] at h
        by_cases c5 : e.code = KEY_SPACE
        · rw [if_pos c5] at h
          rw [held_keys_up_of_entries held hmem] at h
          simp only [Option.some.injEq, Prod.mk.injEq] at h
          obtain ⟨rfl, rfl⟩ := h
          rw [down_minus_up_flush c hcm held hsorted]
          simp
        · rw [if_neg c5] at h; cases h; simp [hfw]
    · rw [if_neg c3] at h
      cases hat : map_space_at e.code with
      | none => simp [hat] at h
      | some m =>
        have hm := map_space_at_some hat
        simp only [hat] at h
        by_cases hz : m ≠ 0
        · rw [if_pos hz] at h
          simp only [Option.some.injEq, Prod.mk.injEq] at h
          obtain ⟨rfl, rfl⟩ := h
          rw [hm.1, hmapped]
          by_cases hd : e.value = KEY_STROKE_DOWN
          · have hnot : e.code ∉ held := fun hin => c2 ⟨hd, hin⟩
            simp only [if_pos hd, mem_set_insert]
            by_cases hec : e.code = c
            · subst hec
              simp [hnot]
            · have : c ≠ e.code := fun h => hec h.symm
              simp [hec, this]
          · simp only [KEY_STROKE_DOWN, KEY_STROKE_UP] at hd c3
            simp [hd, c3]
        · rw [if_neg hz] at h
          cases h; simp [hfw]

theorem main_step_balance {s s1 : MainState} {e : input_event}
    {out : List input_event} (hs : Inv s)
    (he : e.type = EV_KEY → ∀ c, has_map_entry c → e.code ≠ map_space c)
    (h : main_step s e = some (s1, out)) (c : Nat) (hc : has_map_entry c) :
    down_minus_up (map_space c) out
      = (if c ∈ s1.held_keys then 1 else 0) - (if c ∈ s.held_keys then 1 else 0) := by
  have hY : map_space c ≠ KEY_LEFTCTRL := (map_space_facts c hc.2).2.2.2.1
  unfold main_step at h
  by_cases g1 : e.type = EV_MSC ∧ e.code = MSC_SCAN
  · rw [if_pos g1] at h; cases h; simp [down_minus_up_nil]
  rw [if_neg g1] at h
  by_cases g2 : e.type ≠ EV_KEY
  · rw [if_pos g2] at h; cases h
    simp [down_minus_up_other_code _ e (fun hk => absurd hk g2)]
  rw [if_neg g2] at h
  have hkey : e.type = EV_KEY := not_not.1 g2
  have hcaps := Inv_of_caps e hs
  have hbal := switch_state_caps_balance s e (map_space c) hY
  obtain ⟨hf1, -, -⟩ := switch_state_caps_frame s e
  rcases hsw : switch_state_caps s e with ⟨b, s0, o0⟩
  rw [hsw] at hcaps h hbal hf1
  simp only at hbal hf1 hcaps
  cases b
  · simp only at h
    cases hsp : switch_state_space s0 e with
    | none => simp [hsp] at h
    | some r =>
      obtain ⟨s2, o2⟩ := r
      simp only [hsp, Option.some.injEq, Prod.mk.injEq] at h
      obtain ⟨rfl, rfl⟩ := h
      rw [down_minus_up_append, hbal, zero_add,
        switch_state_space_balance hcaps hkey (he hkey) hsp c hc, hf1]
  · simp only [Option.some.injEq, Prod.mk.injEq] at h
    obtain ⟨rfl, rfl⟩ := h
    rw [hbal, hf1]
    simp

theorem main_run_balance {s s1 : MainState} {inputs out : List input_event}
    (hs : Inv s)
    (hin : ∀ e ∈ inputs, e.type = EV_KEY →
      ∀ c, has_map_entry c → e.code ≠ map_space c)
    (h : main_run s inputs = some (s1, out)) (c : Nat) (hc : has_map_entry c) :
    down_minus_up (map_space c) out
      = (if c ∈ s1.held_keys then 1 else 0) - (if c ∈ s.held_keys then 1 else 0) := by
  induction inputs generalizing s out with
  | nil =>
    simp only [main_run, Option.some.injEq, Prod.mk.injEq] at h
    obtain ⟨rfl, rfl⟩ := h
    simp [down_minus_up_nil]
  | cons e es ih =>
    cases hstep : main_step s e with
    | none => simp [main_run, hstep] at h
    | some r =>
      obtain ⟨s0, o0⟩ := r
      rw [main_run_cons_of_step hstep] at h
      cases hrun : main_run s0 es with
      | none => simp [hrun] at h
      | some r2 =>
        obtain ⟨s2, o2⟩ := r2
        simp only [hrun, Option.map_some', Option.some.injEq, Prod.mk.injEq] at h
        obtain ⟨rfl, rfl⟩ := h
        have h1 := main_step_balance hs
          (hin e (List.mem_cons_self e es)) hstep c hc
        have h2 := ih (main_step_Inv hs hstep)
          (fun x hx => hin x (List.mem_cons_of_mem e hx)) hrun
        rw [down_minus_up_append, h1, h2]
        ring

/-! ## Definedness of the loop on codes that index the table -/

theorem switch_state_space_defined (s : MainState) (e : input_event)
    (hs : Inv s) (he : e.code < MAX_KEY) :
    (switch_state_space s e).isSome = true := by
  have hat : map_space_at e.code = some (map_space e.code) := by
    simp only [map_space_at, if_pos he]
  have hup := held_keys_up_of_entries s.held_keys hs.1
  obtain ⟨held, st, ct, sc, ss⟩ := s
  simp only at hup
  cases ss <;> simp only [switch_state_space, map_neg_one, hat, hup] <;>
    split_ifs <;> rfl

theorem main_step_defined (s : MainState) (e : input_event) (hs : Inv s)
    (he : e.type = EV_KEY → e.code < MAX_KEY) :
    (main_step s e).isSome = true := by
  unfold main_step
  by_cases g1 : e.type = EV_MSC ∧ e.code = MSC_SCAN
  · rw [if_pos g1]; rfl
  rw [if_neg g1]
  by_cases g2 : e.type ≠ EV_KEY
  · rw [if_pos g2]; rfl
  rw [if_neg g2]
  have hcaps := Inv_of_caps e hs
  rcases hsw : switch_state_caps s e with ⟨b, s0, o0⟩
  rw [hsw] at hcaps
  cases b
  · have := switch_state_space_defined s0 e hcaps (he (not_not.1 g2))
    simp only
    cases hsp : switch_state_space s0 e with
    | none => simp [hsp] at this
    | some r => rfl
  · rfl

theorem main_run_defined (s : MainState) (inputs : List input_event)
    (hs : Inv s) (hin : ∀ e ∈ inputs, e.type = EV_KEY → e.code < MAX_KEY) :
    (main_run s inputs).isSome = true := by
  induction inputs generalizing s with
  | nil => rfl
  | cons e es ih =>
    have h1 := main_step_defined s e hs (hin e (List.mem_cons_self e es))
    cases hstep : main_step s e with
    | none => simp [hstep] at h1
    | some r =>
      obtain ⟨s0, o0⟩ := r
      have h2 := ih s0 (main_step_Inv hs hstep)
        (fun x hx => hin x (List.mem_cons_of_mem e hx))
      rw [main_run_cons_of_step hstep]
      cases hrun : main_run s0 es with
      | none => simp [hrun] at h2
      | some r2 => rfl

theorem map_space_target_mem (c : Nat) (h : map_space c ≠ 0) :
    is_map_target (map_space c) := by
  have := map_space_sources c h
  simp only [map_space_entries, List.map_cons, List.map_nil, List.mem_cons,
    List.not_mem_nil, or_false] at this
  rcases this with h | h | h | h | h | h | h | h | h | h | h | h | h | h | h | h
    | h | h | h | h | h | h | h | h | h | h <;> subst h <;> decide

/-- C5. Ledger matches downstream state: for every input sequence in which no
KEY record carries a key-map target code, after every prefix the loop has
processed from the initial state, and for every source code c with a key-map
entry, the KEY DOWN records of its target written so far minus the KEY UP
records of its target written so far number 1 if c is in the ledger and 0
otherwise; in particular the difference is 0 for every such c whenever
`state_space` is START.  Every prefix is processed when all KEY codes are
below MAX_KEY. -/
theorem ledger_matches_downstream (inputs : List input_event)
    (hin : ∀ e ∈ inputs, e.type = EV_KEY → ¬ is_map_target e.code) :
    ((∀ e ∈ inputs, e.type = EV_KEY → e.code < MAX_KEY) →
        ∀ n, (main_run main_init (inputs.take n)).isSome = true)
    ∧ ∀ n s out, main_run main_init (inputs.take n) = some (s, out) →
        (∀ c, has_map_entry c →
          down_minus_up (map_space c) out = if c ∈ s.held_keys then 1 else 0)
        ∧ (s.state_space = State.START →
            ∀ c, has_map_entry c → down_minus_up (map_space c) out = 0) := by
  refine ⟨?_, ?_⟩
  · intro hlt n
    exact main_run_defined main_init _ Inv_main_init
      (fun e he => hlt e (List.mem_of_mem_take he))
  · intro n s out hrun
    have hin2 : ∀ e ∈ inputs.take n, e.type = EV_KEY →
        ∀ c, has_map_entry c → e.code ≠ map_space c := by
      intro e he hk c hc heq
      exact hin e (List.mem_of_mem_take he) hk
        (heq ▸ map_space_target_mem c hc.2)
    have hbal : ∀ c, has_map_entry c →
        down_minus_up (map_space c) out = if c ∈ s.held_keys then 1 else 0 := by
      intro c hc
      rw [main_run_balance Inv_main_init hin2 hrun c hc]
      simp [main_init]
    refine ⟨hbal, ?_⟩
    intro hstart c hc
    have hnil : s.held_keys = [] :=
      ledger_nil_of_Inv (main_run_Inv Inv_main_init hrun) (by rw [hstart]; decide)
    rw [hbal c hc, hnil]
    simp

theorem ledger_matches_downstream_witness :
    down_minus_up (map_space KEY_J)
        [key_event ⟨2, 0⟩ KEY_LEFT KEY_STROKE_DOWN,
         key_event ⟨3, 0⟩ KEY_DOWN KEY_STROKE_DOWN,
         key_event ⟨4, 0⟩ KEY_LEFT KEY_STROKE_UP]
      = if KEY_J ∈ [KEY_J] then 1 else 0 :=
  ((ledger_matches_downstream
      [key_event ⟨1, 0⟩ KEY_SPACE KEY_STROKE_DOWN,
       key_event ⟨2, 0⟩ KEY_H KEY_STROKE_DOWN,
       key_event ⟨3, 0⟩ KEY_J KEY_STROKE_DOWN,
       key_event ⟨4, 0⟩ KEY_H KEY_STROKE_UP,
       key_event ⟨5, 0⟩ KEY_SPACE KEY_STROKE_UP]
      (by decide)).2 4
      ⟨[KEY_J], false, true, State.START, State.KEY_HELD⟩
      [key_event ⟨2, 0⟩ KEY_LEFT KEY_STROKE_DOWN,
       key_event ⟨3, 0⟩ KEY_DOWN KEY_STROKE_DOWN,
       key_event ⟨4, 0⟩ KEY_LEFT KEY_STROKE_UP]
      (by decide)).1 KEY_J (by decide)

/-! ## Passthrough of keys without a machine or a map entry -/

theorem switch_state_space_passthrough (s : MainState) (e : input_event)
    (hsp : e.code ≠ KEY_SPACE) (hat : map_space_at e.code = some 0)
    (hnot : e.code ∉ s.held_keys) :
    (switch_state_space s e).map Prod.snd = some [e] := by
  obtain ⟨held, st, ct, sc, ss⟩ := s
  simp only at hnot
  cases ss
  · simp only [switch_state_space, hsp, false_and, if_false]
    rfl
  · simp only [switch_state_space, hsp, false_and, if_false, hat]
    split_ifs <;> first | rfl | contradiction
  · simp only [switch_state_space, hsp, false_and, and_false, if_false, hat, hnot]
    split_ifs <;> first | rfl | contradiction

theorem switch_state_caps_passthrough (s : MainState) (e : input_event)
    (hcl : e.code ≠ KEY_CAPSLOCK) :
    (switch_state_caps s e).1 = false
      ∧ ((switch_state_caps s e).2.2 = [] ∨ (switch_state_caps s e).2.2 = [ctrl_down]) := by
  obtain ⟨held, st, ct, sc, ss⟩ := s
  cases sc
  · simp only [switch_state_caps, hcl, false_and, if_false]
    simp
  · cases ct <;> simp only [switch_state_caps, hcl, false_and, if_false] <;>
      split_ifs <;> simp
  · simp [switch_state_caps]

/-- Passthrough for codes that index the table: in every reachable state a
KEY record whose code is below MAX_KEY, is neither SPACE nor CAPSLOCK and has
no key-map entry is written once, unmodified, preceded by nothing or by the
one synthetic DOWN(LEFTCTRL). -/
theorem passthrough_in_table (s : MainState) (hr : Reachable s)
    (e : input_event) (hk : e.type = EV_KEY) (hlt : e.code < MAX_KEY)
    (hsp : e.code ≠ KEY_SPACE) (hcl : e.code ≠ KEY_CAPSLOCK)
    (hno : ¬ has_map_entry e.code) :
    (main_step s e).map Prod.snd = some [e]
      ∨ (main_step s e).map Prod.snd = some [ctrl_down, e] := by
  have hz : map_space e.code = 0 := by
    by_contra h
    exact hno ⟨hlt, h⟩
  have hat : map_space_at e.code = some 0 := by
    simp only [map_space_at, if_pos hlt, hz]
  have hnot : e.code ∉ s.held_keys := fun hin => hno (hr.inv.1 _ hin)
  obtain ⟨hf, -, -⟩ := switch_state_caps_frame s e
  obtain ⟨hb, ho⟩ := switch_state_caps_passthrough s e hcl
  have g1 : ¬ (e.type = EV_MSC ∧ e.code = MSC_SCAN) := by
    rw [hk]; simp
  have g2 : ¬ (e.type ≠ EV_KEY) := not_not.2 hk
  unfold main_step
  rw [if_neg g1, if_neg g2]
  rcases hsw : switch_state_caps s e with ⟨b, s0, o0⟩
  rw [hsw] at hf hb ho
  simp only at hf hb ho
  subst hb
  have hpass := switch_state_space_passthrough s0 e hsp hat (hf ▸ hnot)
  cases hsp2 : switch_state_space s0 e with
  | none => simp [hsp2] at hpass
  | some r =>
    obtain ⟨s2, o2⟩ := r
    simp only [hsp2, Option.map_some', Option.some.injEq] at hpass
    subst hpass
    rcases ho with rfl | rfl
    · left; simp [hsp2]
    · right; simp [hsp2]

/-- C6 fails on the code at a key above the table: SPACE held (reached by
DOWN(SPACE)), then KEY DOWN with code 248 (not SPACE, not CAPSLOCK, no
key-map entry).  The iteration reads `map_space[248]`, one slot past the end
of the 248-slot array, so it has no defined result and the record is not
guaranteed to be forwarded. -/
theorem passthrough_reads_past_table :
    (248 ≠ KEY_SPACE ∧ 248 ≠ KEY_CAPSLOCK ∧ ¬ has_map_entry 248)
    ∧ main_run main_init [key_event ⟨1, 0⟩ KEY_SPACE KEY_STROKE_DOWN]
        = some (⟨[], true, true, State.START, State.MODIFIER_HELD⟩, [])
    ∧ map_space_at 248 = none
    ∧ main_step ⟨[], true, true, State.START, State.MODIFIER_HELD⟩
        (key_event ⟨2, 0⟩ 248 KEY_STROKE_DOWN) = none := by
  decide


/-! ## The ledger and the layer state -/

/-- C11. Ledger/state invariant: in every reachable state the ledger is
non-empty exactly when `state_space` is KEY_HELD, and every code in the
ledger has a non-zero key-map entry and is neither SPACE nor CAPSLOCK. -/
theorem ledger_state_invariant (s : MainState) (hr : Reachable s) :
    (s.held_keys ≠ [] ↔ s.state_space = State.KEY_HELD)
    ∧ ∀ c ∈ s.held_keys,
        has_map_entry c ∧ c ≠ KEY_SPACE ∧ c ≠ KEY_CAPSLOCK := by
  refine ⟨hr.inv.2.2, ?_⟩
  intro c hc
  have hentry := hr.inv.1 c hc
  obtain ⟨-, h57, h58, -⟩ := map_space_facts c hentry.2
  exact ⟨hentry, h57, h58⟩

theorem ledger_state_invariant_witness :
    (([KEY_H, KEY_J] : List Nat) ≠ [] ↔ State.KEY_HELD = State.KEY_HELD)
    ∧ ∀ c ∈ ([KEY_H, KEY_J] : List Nat),
        has_map_entry c ∧ c ≠ KEY_SPACE ∧ c ≠ KEY_CAPSLOCK :=
  ledger_state_invariant ⟨[KEY_H, KEY_J], false, true, State.START, State.KEY_HELD⟩
    ⟨[key_event ⟨1, 0⟩ KEY_SPACE KEY_STROKE_DOWN,
      key_event ⟨2, 0⟩ KEY_J KEY_STROKE_DOWN,
      key_event ⟨3, 0⟩ KEY_H KEY_STROKE_DOWN],
     [key_event ⟨2, 0⟩ KEY_DOWN KEY_STROKE_DOWN,
      key_event ⟨3, 0⟩ KEY_LEFT KEY_STROKE_DOWN], by decide⟩

/-! ## Idle machines -/

/-- C14 as stated fails for the layer machine: from the initial state (both
machines in START) a KEY record of SPACE with value REPEAT, which is not the
DOWN of SPACE, is consumed and moves `state_space` to MODIFIER_HELD. -/
theorem idle_transparency_counterexample :
    KEY_STROKE_REPEAT ≠ KEY_STROKE_DOWN
    ∧ main_init.state_space = State.START
    ∧ main_step main_init (key_event ⟨1, 0⟩ KEY_SPACE KEY_STROKE_REPEAT)
        = some (⟨[], true, true, State.START, State.MODIFIER_HELD⟩, []) := by
  decide

/-- C14, amended. Idle transparency: in state START the CAPSLOCK machine,
given a KEY record that is not DOWN(CAPSLOCK), stays in START, writes
nothing and hands the record on; in state START the SPACE machine, given a
KEY record that is not a SPACE record with a value other than UP (so neither
DOWN nor REPEAT of SPACE), stays in START and forwards the record; when both
are in START such a record is written unchanged as the only output and no
local changes. -/
theorem idle_transparency (s : MainState) (e : input_event)
    (hk : e.type = EV_KEY) :
    (s.state_caps = State.START →
        ¬ (e.code = KEY_CAPSLOCK ∧ e.value = KEY_STROKE_DOWN) →
        switch_state_caps s e = (false, s, []))
    ∧ (s.state_space = State.START →
        ¬ (e.code = KEY_SPACE ∧ e.value ≠ KEY_STROKE_UP) →
        switch_state_space s e = some (s, [e]))
    ∧ (s.state_caps = State.START → s.state_space = State.START →
        ¬ (e.code = KEY_CAPSLOCK ∧ e.value = KEY_STROKE_DOWN) →
        ¬ (e.code = KEY_SPACE ∧ e.value ≠ KEY_STROKE_UP) →
        main_step s e = some (s, [e])) := by
  obtain ⟨held, st, ct, sc, ss⟩ := s
  have hcaps : sc = State.START →
      ¬ (e.code = KEY_CAPSLOCK ∧ e.value = KEY_STROKE_DOWN) →
      switch_state_caps ⟨held, st, ct, sc, ss⟩ e
        = (false, ⟨held, st, ct, sc, ss⟩, []) := by
    intro h1 h2
    subst h1
    simp only [switch_state_caps, if_neg h2]
  have hspace : ss = State.START →
      ¬ (e.code = KEY_SPACE ∧ e.value ≠ KEY_STROKE_UP) →
      switch_state_space ⟨held, st, ct, sc, ss⟩ e
        = some (⟨held, st, ct, sc, ss⟩, [e]) := by
    intro h1 h2
    subst h1
    simp only [switch_state_space, if_neg h2]
  refine ⟨hcaps, hspace, ?_⟩
  intro h1 h2 h3 h4
  have g1 : ¬ (e.type = EV_MSC ∧ e.code = MSC_SCAN) := by
    rw [hk]; simp
  have g2 : ¬ (e.type ≠ EV_KEY) := not_not.2 hk
  unfold main_step
  rw [if_neg g1, if_neg g2, hcaps h1 h3]
  simp only [hspace h2 h4, List.nil_append]

theorem idle_transparency_witness :
    main_step main_init (key_event ⟨1, 0⟩ KEY_A KEY_STROKE_DOWN)
      = some (main_init, [key_event ⟨1, 0⟩ KEY_A KEY_STROKE_DOWN]) :=
  (idle_transparency main_init (key_event ⟨1, 0⟩ KEY_A KEY_STROKE_DOWN) rfl).2.2
    rfl rfl (by decide) (by decide)

/-! ## Modifier and layer together -/

/-- C20 as stated fails at X = E: E has a key-map entry whose target is ESC,
so DOWN(CAPSLOCK), DOWN(SPACE), DOWN(E), UP(E), UP(SPACE), UP(CAPSLOCK)
writes DOWN(LEFTCTRL), DOWN(ESC), UP(ESC), UP(LEFTCTRL), and ESC does appear
in the output. -/
theorem modifier_layer_compose_counterexample :
    has_map_entry KEY_E
    ∧ (main_run main_init
          [key_event ⟨1, 0⟩ KEY_CAPSLOCK KEY_STROKE_DOWN,
           key_event ⟨2, 0⟩ KEY_SPACE KEY_STROKE_DOWN,
           key_event ⟨3, 0⟩ KEY_E KEY_STROKE_DOWN,
           key_event ⟨4, 0⟩ KEY_E KEY_STROKE_UP,
           key_event ⟨5, 0⟩ KEY_SPACE KEY_STROKE_UP,
           key_event ⟨6, 0⟩ KEY_CAPSLOCK KEY_STROKE_UP]).map Prod.snd
        = some [key_event ⟨0, 0⟩ KEY_LEFTCTRL KEY_STROKE_DOWN,
                key_event ⟨3, 0⟩ KEY_ESC KEY_STROKE_DOWN,
                key_event ⟨4, 0⟩ KEY_ESC KEY_STROKE_UP,
                key_event ⟨6, 0⟩ KEY_LEFTCTRL KEY_STROKE_UP]
    ∧ ∃ e ∈ [key_event ⟨0, 0⟩ KEY_LEFTCTRL KEY_STROKE_DOWN,
              key_event ⟨3, 0⟩ KEY_ESC KEY_STROKE_DOWN,
              key_event ⟨4, 0⟩ KEY_ESC KEY_STROKE_UP,
              key_event ⟨6, 0⟩ KEY_LEFTCTRL KEY_STROKE_UP],
        e.code = KEY_ESC := by
  decide

/-- C20, amended. Modifier and layer compose: from the initial state, for
every key X with a key-map entry X to Y, DOWN(CAPSLOCK), DOWN(SPACE), DOWN(X),
UP(X), UP(SPACE), UP(CAPSLOCK) writes exactly DOWN(LEFTCTRL), DOWN(Y), UP(Y),
UP(LEFTCTRL); neither CAPSLOCK, SPACE nor X appears in the output, ESC appears
only when X is E (whose target is ESC), and both machines end in START with an
empty ledger. -/
theorem modifier_layer_compose (X : Nat) (hX : has_map_entry X)
    (t1 t2 t3 t4 t5 t6 : timeval) :
    ∃ s, main_run main_init
          [key_event t1 KEY_CAPSLOCK KEY_STROKE_DOWN,
           key_event t2 KEY_SPACE KEY_STROKE_DOWN,
           key_event t3 X KEY_STROKE_DOWN,
           key_event t4 X KEY_STROKE_UP,
           key_event t5 KEY_SPACE KEY_STROKE_UP,
           key_event t6 KEY_CAPSLOCK KEY_STROKE_UP]
        = some (s, [key_event ⟨0, 0⟩ KEY_LEFTCTRL KEY_STROKE_DOWN,
                    key_event t3 (map_space X) KEY_STROKE_DOWN,
                    key_event t4 (map_space X) KEY_STROKE_UP,
                    key_event t6 KEY_LEFTCTRL KEY_STROKE_UP])
      ∧ (∀ e ∈ [key_event ⟨0, 0⟩ KEY_LEFTCTRL KEY_STROKE_DOWN,
                key_event t3 (map_space X) KEY_STROKE_DOWN,
                key_event t4 (map_space X) KEY_STROKE_UP,
                key_event t6 KEY_LEFTCTRL KEY_STROKE_UP],
            e.code ≠ KEY_CAPSLOCK ∧ e.code ≠ KEY_SPACE ∧ e.code ≠ X
              ∧ (e.code = KEY_ESC → X = KEY_E))
      ∧ s.state_caps = State.START ∧ s.state_space = State.START
      ∧ s.held_keys = [] := by
  have hm : map_space X ≠ 0 := hX.2
  obtain ⟨-, h57, h58, -, hY57, hY58, hYY, -⟩ := map_space_facts X hm
  have hat := map_space_at_of_entry X hm
  have hX29 : X ≠ 29 := by
    intro h; subst h; exact hm (by decide)
  have hYX : map_space X ≠ X := by
    intro h; rw [h] at hYY; exact hm hYY
  have hesc : map_space X = 1 → X = 18 := by
    intro h
    exact map_space_inj X 18 hm (h.trans (by decide))
  have h1 : main_step main_init (key_event t1 KEY_CAPSLOCK KEY_STROKE_DOWN)
      = some (⟨[], true, true, State.MODIFIER_HELD, State.START⟩, []) := by
    simp [main_step, switch_state_caps, switch_state_space, key_event, main_init]
  have h2 : main_step ⟨[], true, true, State.MODIFIER_HELD, State.START⟩
      (key_event t2 KEY_SPACE KEY_STROKE_DOWN)
      = some (⟨[], true, false, State.MODIFIER_HELD, State.MODIFIER_HELD⟩,
          [ctrl_down]) := by
    simp [main_step, switch_state_caps, switch_state_space, key_event]
  have h3 : main_step ⟨[], true, false, State.MODIFIER_HELD, State.MODIFIER_HELD⟩
      (key_event t3 X KEY_STROKE_DOWN)
      = some (⟨[X], false, false, State.MODIFIER_HELD, State.KEY_HELD⟩,
          [key_event t3 (map_space X) KEY_STROKE_DOWN]) := by
    simp [main_step, switch_state_caps, switch_state_space, key_event, h57, h58,
      hat, hm, map, set_insert]
  have h4 : main_step ⟨[X], false, false, State.MODIFIER_HELD, State.KEY_HELD⟩
      (key_event t4 X KEY_STROKE_UP)
      = some (⟨[], false, false, State.MODIFIER_HELD, State.MODIFIER_HELD⟩,
          [key_event t4 (map_space X) KEY_STROKE_UP]) := by
    simp [main_step, switch_state_caps, switch_state_space, key_event, h57, h58,
      hat, map, set_erase]
  have h5 : main_step ⟨[], false, false, State.MODIFIER_HELD, State.MODIFIER_HELD⟩
      (key_event t5 KEY_SPACE KEY_STROKE_UP)
      = some (⟨[], false, false, State.MODIFIER_HELD, State.START⟩, []) := by
    simp [main_step, switch_state_caps, switch_state_space, key_event]
  have h6 : main_step ⟨[], false, false, State.MODIFIER_HELD, State.START⟩
      (key_event t6 KEY_CAPSLOCK KEY_STROKE_UP)
      = some (⟨[], false, false, State.START, State.START⟩,
          [key_event t6 KEY_LEFTCTRL KEY_STROKE_UP]) := by
    simp [main_step, switch_state_caps, switch_state_space, key_event]
  refine ⟨⟨[], false, false, State.START, State.START⟩, ?_, ?_, rfl, rfl, rfl⟩
  · rw [main_run_cons_of_step h1, main_run_cons_of_step h2,
      main_run_cons_of_step h3, main_run_cons_of_step h4,
      main_run_cons_of_step h5, main_run_cons_of_step h6, main_run_nil]
    simp [ctrl_down, key_event]
  · intro e he
    simp only [List.mem_cons, List.not_mem_nil, or_false] at he
    rcases he with rfl | rfl | rfl | rfl
    · exact ⟨show 29 ≠ 58 by decide, show 29 ≠ 57 by decide,
        fun h => hX29 h.symm, fun h => absurd h (show ¬ 29 = 1 by decide)⟩
    · exact ⟨hY58, hY57, hYX, hesc⟩
    · exact ⟨hY58, hY57, hYX, hesc⟩
    · exact ⟨show 29 ≠ 58 by decide, show 29 ≠ 57 by decide,
        fun h => hX29 h.symm, fun h => absurd h (show ¬ 29 = 1 by decide)⟩

theorem modifier_layer_compose_witness :
    ∃ s, main_run main_init
          [key_event ⟨1, 0⟩ KEY_CAPSLOCK KEY_STROKE_DOWN,
           key_event ⟨2, 0⟩ KEY_SPACE KEY_STROKE_DOWN,
           key_event ⟨3, 0⟩ KEY_H KEY_STROKE_DOWN,
           key_event ⟨4, 0⟩ KEY_H KEY_STROKE_UP,
           key_event ⟨5, 0⟩ KEY_SPACE KEY_STROKE_UP,
           key_event ⟨6, 0⟩ KEY_CAPSLOCK KEY_STROKE_UP]
        = some (s, [key_event ⟨0, 0⟩ KEY_LEFTCTRL KEY_STROKE_DOWN,
                    key_event ⟨3, 0⟩ KEY_LEFT KEY_STROKE_DOWN,
                    key_event ⟨4, 0⟩ KEY_LEFT KEY_STROKE_UP,
                    key_event ⟨6, 0⟩ KEY_LEFTCTRL KEY_STROKE_UP])
      ∧ (∀ e ∈ [key_event ⟨0, 0⟩ KEY_LEFTCTRL KEY_STROKE_DOWN,
                key_event ⟨3, 0⟩ KEY_LEFT KEY_STROKE_DOWN,
                key_event ⟨4, 0⟩ KEY_LEFT KEY_STROKE_UP,
                key_event ⟨6, 0⟩ KEY_LEFTCTRL KEY_STROKE_UP],
            e.code ≠ KEY_CAPSLOCK ∧ e.code ≠ KEY_SPACE ∧ e.code ≠ KEY_H
              ∧ (e.code = KEY_ESC → KEY_H = KEY_E))
      ∧ s.state_caps = State.START ∧ s.state_space = State.START
      ∧ s.held_keys = [] :=
  modifier_layer_compose KEY_H (by decide) ⟨1, 0⟩ ⟨2, 0⟩ ⟨3, 0⟩ ⟨4, 0⟩ ⟨5, 0⟩ ⟨6, 0⟩


/-! ## Single iterations on KEY records -/

theorem main_step_of_caps_pass {s s0 : MainState} {e : input_event}
    {o0 : List input_event} (hk : e.type = EV_KEY)
    (hc : switch_state_caps s e = (false, s0, o0)) :
    main_step s e
      = (switch_state_space s0 e).map (fun r => (r.1, o0 ++ r.2)) := by
  have g1 : ¬ (e.type = EV_MSC ∧ e.code = MSC_SCAN) := by
    rw [hk]; simp
  have g2 : ¬ (e.type ≠ EV_KEY) := not_not.2 hk
  unfold main_step
  rw [if_neg g1, if_neg g2, hc]
  dsimp only
  cases hsp : switch_state_space s0 e <;> simp

theorem switch_state_caps_not_down (s : MainState) (e : input_event)
    (hcl : e.code ≠ KEY_CAPSLOCK) (hv : e.value ≠ KEY_STROKE_DOWN) :
    switch_state_caps s e = (false, s, []) := by
  obtain ⟨held, st, ct, sc, ss⟩ := s
  cases sc <;> simp only [switch_state_caps, hcl, hv, false_and, if_false]

theorem switch_state_caps_down (s : MainState) (e : input_event)
    (hcl : e.code ≠ KEY_CAPSLOCK) (hv : e.value = KEY_STROKE_DOWN) :
    switch_state_caps s e =
      if s.state_caps = State.MODIFIER_HELD ∧ s.caps_tapped_should_emit = true then
        (false, { s with caps_tapped_should_emit := false }, [ctrl_down])
      else (false, s, []) := by
  simp only [KEY_CAPSLOCK, KEY_STROKE_DOWN] at hcl hv
  obtain ⟨held, st, ct, sc, ss⟩ := s
  cases sc <;> cases ct <;>
    simp [switch_state_caps, hcl, hv, ctrl_down]

theorem isModifier_ne_zero_iff (c : Nat) (hcl : c ≠ KEY_CAPSLOCK) :
    isModifier (Int.ofNat c) ≠ 0 ↔
      c ∈ [KEY_LEFTSHIFT, KEY_RIGHTSHIFT, KEY_LEFTCTRL, KEY_RIGHTCTRL,
           KEY_LEFTALT, KEY_RIGHTALT, KEY_LEFTMETA, KEY_RIGHTMETA] := by
  simp only [KEY_CAPSLOCK] at hcl
  unfold isModifier
  simp only [Int.ofNat_eq_coe, KEY_LEFTSHIFT, KEY_RIGHTSHIFT, KEY_LEFTCTRL,
    KEY_RIGHTCTRL, KEY_LEFTALT, KEY_RIGHTALT, KEY_LEFTMETA, KEY_RIGHTMETA,
    KEY_CAPSLOCK, Nat.cast_ofNat, Nat.cast_inj, List.mem_cons,
    List.not_mem_nil, or_false]
  have : ((c : Int) = 58) ↔ c = 58 := by omega
  split_ifs with h
  · constructor
    · intro _
      rcases h with h | h | h | h | h | h | h | h | h <;> omega
    · intro _; decide
  · constructor
    · intro h0; exact absurd rfl h0
    · intro h1
      exfalso
      apply h
      omega

theorem switch_state_space_pending_down_unmapped (s : MainState)
    (hs : s.state_space = State.MODIFIER_HELD) (e : input_event)
    (hv : e.value = KEY_STROKE_DOWN) (hsp : e.code ≠ KEY_SPACE)
    (hat : map_space_at e.code = some 0) :
    switch_state_space s e
      = some ({ s with space_tapped_should_emit :=
                  s.space_tapped_should_emit &&
                    (e.code != KEY_CAPSLOCK
                      && isModifier (Int.ofNat e.code) != 0) }, [e]) := by
  simp only [KEY_SPACE, KEY_STROKE_DOWN] at hsp hv
  obtain ⟨held, st, ct, sc, ss⟩ := s
  simp only at hs
  subst hs
  simp [switch_state_space, hsp, hv, hat]

theorem switch_state_space_pending_down_mapped (s : MainState)
    (hs : s.state_space = State.MODIFIER_HELD) (e : input_event)
    (hv : e.value = KEY_STROKE_DOWN) (hm : has_map_entry e.code) :
    switch_state_space s e
      = some ({ s with space_tapped_should_emit := false,
                       held_keys := set_insert e.code s.held_keys,
                       state_space := State.KEY_HELD },
          [⟨e.time, e.type, map_space e.code, e.value⟩]) := by
  obtain ⟨-, h57, -⟩ := map_space_facts e.code hm.2
  have hat := map_space_at_of_entry e.code hm.2
  obtain ⟨held, st, ct, sc, ss⟩ := s
  simp only at hs
  subst hs
  simp only [KEY_STROKE_DOWN] at hv
  simp [switch_state_space, h57, hv, hat, hm.2, map_neg_one]

/-! ## Keys pressed while SPACE is pending -/

/-- C13 as stated fails in two ways.  LEFTSHIFT differs from SPACE and has
no key-map entry, yet after DOWN(SPACE), DOWN(LEFTSHIFT) the flag stays true
and UP(SPACE) writes the tap combo.  CAPSLOCK differs from SPACE and has no
key-map entry, yet DOWN(CAPSLOCK) while SPACE is pending is consumed by the
CAPSLOCK machine: nothing is forwarded and the flag stays true. -/
theorem layer_commit_counterexample :
    (KEY_LEFTSHIFT ≠ KEY_SPACE ∧ ¬ has_map_entry KEY_LEFTSHIFT
      ∧ main_run main_init
          [key_event ⟨1, 0⟩ KEY_SPACE KEY_STROKE_DOWN,
           key_event ⟨2, 0⟩ KEY_LEFTSHIFT KEY_STROKE_DOWN]
        = some (⟨[], true, true, State.START, State.MODIFIER_HELD⟩,
            [key_event ⟨2, 0⟩ KEY_LEFTSHIFT KEY_STROKE_DOWN])
      ∧ main_step ⟨[], true, true, State.START, State.MODIFIER_HELD⟩
          (key_event ⟨3, 0⟩ KEY_SPACE KEY_STROKE_UP)
        = some (⟨[], false, true, State.START, State.START⟩,
            write_combo KEY_SPACE))
    ∧ (KEY_CAPSLOCK ≠ KEY_SPACE ∧ ¬ has_map_entry KEY_CAPSLOCK
      ∧ main_run main_init
          [key_event ⟨1, 0⟩ KEY_SPACE KEY_STROKE_DOWN,
           key_event ⟨2, 0⟩ KEY_CAPSLOCK KEY_STROKE_DOWN]
        = some (⟨[], true, true, State.MODIFIER_HELD, State.MODIFIER_HELD⟩,
            [])) := by
  decide

/-- C13, amended. Layer commit on unmapped key: while `state_space` is
MODIFIER_HELD, for every code below MAX_KEY that differs from SPACE and
CAPSLOCK, has no key-map entry and is rejected by `isModifier`, a DOWN record
of that code is forwarded unchanged (after at most the one synthetic
DOWN(LEFTCTRL)), leaves `state_space` at MODIFIER_HELD and makes
`space_tapped_should_emit` false, so that the following UP(SPACE) writes
nothing and returns to START. -/
theorem layer_commit_on_unmapped_key (s : MainState)
    (hs : s.state_space = State.MODIFIER_HELD) (c : Nat) (hlt : c < MAX_KEY)
    (hsp : c ≠ KEY_SPACE) (hcl : c ≠ KEY_CAPSLOCK) (hno : ¬ has_map_entry c)
    (hmod : isModifier (Int.ofNat c) = 0) (t t2 : timeval) :
    ∃ s1 pre, main_step s (key_event t c KEY_STROKE_DOWN)
        = some (s1, pre ++ [key_event t c KEY_STROKE_DOWN])
      ∧ (pre = [] ∨ pre = [ctrl_down])
      ∧ s1.space_tapped_should_emit = false
      ∧ s1.state_space = State.MODIFIER_HELD
      ∧ ∃ s2, main_step s1 (key_event t2 KEY_SPACE KEY_STROKE_UP) = some (s2, [])
          ∧ s2.state_space = State.START := by
  have hz : map_space c = 0 := by
    by_contra h
    exact hno ⟨hlt, h⟩
  have hat : map_space_at (key_event t c KEY_STROKE_DOWN).code = some 0 := by
    simp only [key_event, map_space_at, if_pos hlt, hz]
  obtain ⟨hf1, hf2, -⟩ := switch_state_caps_frame s (key_event t c KEY_STROKE_DOWN)
  obtain ⟨hb, ho⟩ := switch_state_caps_passthrough s (key_event t c KEY_STROKE_DOWN) hcl
  rcases hsw : switch_state_caps s (key_event t c KEY_STROKE_DOWN) with ⟨b, s0, o0⟩
  rw [hsw] at hf1 hf2 hb ho
  simp only at hf1 hf2 hb ho
  subst hb
  have hs0 : s0.state_space = State.MODIFIER_HELD := hf2.trans hs
  have hstep := main_step_of_caps_pass rfl hsw
  rw [switch_state_space_pending_down_unmapped s0 hs0 _ rfl hsp hat] at hstep
  have hflag : (s0.space_tapped_should_emit &&
      ((key_event t c KEY_STROKE_DOWN).code != KEY_CAPSLOCK
        && isModifier (Int.ofNat (key_event t c KEY_STROKE_DOWN).code) != 0))
      = false := by
    simp only [key_event, hmod]
    simp
  rw [hflag] at hstep
  refine ⟨_, o0, hstep, ho, rfl, hs0, ?_⟩
  obtain ⟨held, st, ct, sc, ss⟩ := s0
  simp only at hs0
  subst hs0
  have hcaps2 := switch_state_caps_not_down
    ⟨held, false, ct, sc, State.MODIFIER_HELD⟩
    (key_event t2 KEY_SPACE KEY_STROKE_UP)
    (show KEY_SPACE ≠ KEY_CAPSLOCK by decide)
    (show KEY_STROKE_UP ≠ KEY_STROKE_DOWN by decide)
  refine ⟨⟨held, false, ct, sc, State.START⟩, ?_, rfl⟩
  rw [main_step_of_caps_pass rfl hcaps2]
  simp [switch_state_space, key_event]

theorem layer_commit_on_unmapped_key_witness :
    ∃ s1 pre, main_step ⟨[], true, true, State.START, State.MODIFIER_HELD⟩
          (key_event ⟨2, 0⟩ KEY_A KEY_STROKE_DOWN)
        = some (s1, pre ++ [key_event ⟨2, 0⟩ KEY_A KEY_STROKE_DOWN])
      ∧ (pre = [] ∨ pre = [ctrl_down])
      ∧ s1.space_tapped_should_emit = false
      ∧ s1.state_space = State.MODIFIER_HELD
      ∧ ∃ s2, main_step s1 (key_event ⟨3, 0⟩ KEY_SPACE KEY_STROKE_UP) = some (s2, [])
          ∧ s2.state_space = State.START :=
  layer_commit_on_unmapped_key ⟨[], true, true, State.START, State.MODIFIER_HELD⟩
    rfl KEY_A (by decide) (by decide) (by decide) (by decide) (by decide)
    ⟨2, 0⟩ ⟨3, 0⟩

/-- C19 as stated fails at CAPSLOCK: while `state_space` is MODIFIER_HELD
with the flag true, DOWN(CAPSLOCK) is a DOWN of another key that leaves the
flag true (the CAPSLOCK machine consumes the record), although CAPSLOCK is
not one of the eight listed modifiers. -/
theorem modifier_keeps_tap_counterexample :
    KEY_CAPSLOCK ≠ KEY_SPACE
    ∧ KEY_CAPSLOCK ∉ [KEY_LEFTSHIFT, KEY_RIGHTSHIFT, KEY_LEFTCTRL, KEY_RIGHTCTRL,
        KEY_LEFTALT, KEY_RIGHTALT, KEY_LEFTMETA, KEY_RIGHTMETA]
    ∧ main_run main_init [key_event ⟨1, 0⟩ KEY_SPACE KEY_STROKE_DOWN]
        = some (⟨[], true, true, State.START, State.MODIFIER_HELD⟩, [])
    ∧ main_step ⟨[], true, true, State.START, State.MODIFIER_HELD⟩
          (key_event ⟨2, 0⟩ KEY_CAPSLOCK KEY_STROKE_DOWN)
        = some (⟨[], true, true, State.MODIFIER_HELD, State.MODIFIER_HELD⟩, []) := by
  decide

/-- C19, amended. Modifier keys keep the layer tap alive: while
`state_space` is MODIFIER_HELD with `space_tapped_should_emit` true, a DOWN of
a key other than SPACE and CAPSLOCK with a code below MAX_KEY is processed and
leaves the flag true if and only if that key has no key-map entry and is one
of LEFTSHIFT, RIGHTSHIFT, LEFTCTRL, RIGHTCTRL, LEFTALT, RIGHTALT, LEFTMETA,
RIGHTMETA; and from the initial state DOWN(SPACE), DOWN(LEFTSHIFT), UP(SPACE)
writes DOWN(LEFTSHIFT), DOWN(SPACE), SYN_REPORT, UP(SPACE). -/
theorem modifier_keeps_tap (s : MainState)
    (hs : s.state_space = State.MODIFIER_HELD)
    (htap : s.space_tapped_should_emit = true) (c : Nat) (hlt : c < MAX_KEY)
    (hsp : c ≠ KEY_SPACE) (hcl : c ≠ KEY_CAPSLOCK) (t t1 t2 t3 : timeval) :
    (∃ s1 out, main_step s (key_event t c KEY_STROKE_DOWN) = some (s1, out)
      ∧ (s1.space_tapped_should_emit = true ↔
          (¬ has_map_entry c
            ∧ c ∈ [KEY_LEFTSHIFT, KEY_RIGHTSHIFT, KEY_LEFTCTRL, KEY_RIGHTCTRL,
                   KEY_LEFTALT, KEY_RIGHTALT, KEY_LEFTMETA, KEY_RIGHTMETA])))
    ∧ (main_run main_init
          [key_event t1 KEY_SPACE KEY_STROKE_DOWN,
           key_event t2 KEY_LEFTSHIFT KEY_STROKE_DOWN,
           key_event t3 KEY_SPACE KEY_STROKE_UP]).map Prod.snd
        = some [key_event t2 KEY_LEFTSHIFT KEY_STROKE_DOWN,
                key_event ⟨0, 0⟩ KEY_SPACE KEY_STROKE_DOWN,
                ⟨⟨0, 0⟩, EV_SYN, SYN_REPORT, 0⟩,
                key_event ⟨0, 0⟩ KEY_SPACE KEY_STROKE_UP] := by
  constructor
  · obtain ⟨hf1, hf2, hf3⟩ := switch_state_caps_frame s (key_event t c KEY_STROKE_DOWN)
    obtain ⟨hb, -⟩ := switch_state_caps_passthrough s (key_event t c KEY_STROKE_DOWN) hcl
    rcases hsw : switch_state_caps s (key_event t c KEY_STROKE_DOWN) with ⟨b, s0, o0⟩
    rw [hsw] at hf1 hf2 hf3 hb
    simp only at hf1 hf2 hf3 hb
    subst hb
    have hs0 : s0.state_space = State.MODIFIER_HELD := hf2.trans hs
    have htap0 : s0.space_tapped_should_emit = true := hf3.trans htap
    have hstep := main_step_of_caps_pass rfl hsw
    by_cases hm : has_map_entry c
    · rw [switch_state_space_pending_down_mapped s0 hs0 _ rfl hm] at hstep
      refine ⟨_, _, hstep, ?_⟩
      simp [hm]
    · have hz : map_space c = 0 := by
        by_contra h
        exact hm ⟨hlt, h⟩
      have hat : map_space_at (key_event t c KEY_STROKE_DOWN).code = some 0 := by
        simp only [key_event, map_space_at, if_pos hlt, hz]
      rw [switch_state_space_pending_down_unmapped s0 hs0 _ rfl hsp hat] at hstep
      refine ⟨_, _, hstep, ?_⟩
      have hiff := isModifier_ne_zero_iff c hcl
      have hne : (c != KEY_CAPSLOCK) = true := by
        simpa using hcl
      simp only [Option.map_some', htap0, Bool.true_and, key_event, hne, bne_iff_ne,
        ne_eq, hm, not_false_eq_true, true_and]
      exact hiff
  · have h1 : main_step main_init (key_event t1 KEY_SPACE KEY_STROKE_DOWN)
        = some (⟨[], true, true, State.START, State.MODIFIER_HELD⟩, []) := by
      simp [main_step, switch_state_caps, switch_state_space, key_event, main_init]
    have h2 : main_step ⟨[], true, true, State.START, State.MODIFIER_HELD⟩
        (key_event t2 KEY_LEFTSHIFT KEY_STROKE_DOWN)
        = some (⟨[], true, true, State.START, State.MODIFIER_HELD⟩,
            [key_event t2 KEY_LEFTSHIFT KEY_STROKE_DOWN]) := by
      have hat : map_space_at 42 = some 0 := by decide
      have hmod : isModifier 42 = 1 := by decide
      simp [main_step, switch_state_caps, switch_state_space, key_event, hat, hmod]
    have h3 : main_step ⟨[], true, true, State.START, State.MODIFIER_HELD⟩
        (key_event t3 KEY_SPACE KEY_STROKE_UP)
        = some (⟨[], false, true, State.START, State.START⟩,
            write_combo KEY_SPACE) := by
      simp [main_step, switch_state_caps, switch_state_space, key_event]
    rw [main_run_cons_of_step h1, main_run_cons_of_step h2,
      main_run_cons_of_step h3, main_run_nil]
    simp [write_combo, _syn, key_event]

theorem modifier_keeps_tap_witness :
    (∃ s1 out, main_step ⟨[], true, true, State.START, State.MODIFIER_HELD⟩
          (key_event ⟨2, 0⟩ KEY_LEFTALT KEY_STROKE_DOWN) = some (s1, out)
      ∧ (s1.space_tapped_should_emit = true ↔
          (¬ has_map_entry KEY_LEFTALT
            ∧ KEY_LEFTALT ∈ [KEY_LEFTSHIFT, KEY_RIGHTSHIFT, KEY_LEFTCTRL,
                KEY_RIGHTCTRL, KEY_LEFTALT, KEY_RIGHTALT, KEY_LEFTMETA,
                KEY_RIGHTMETA])))
    ∧ (main_run main_init
          [key_event ⟨1, 0⟩ KEY_SPACE KEY_STROKE_DOWN,
           key_event ⟨2, 0⟩ KEY_LEFTSHIFT KEY_STROKE_DOWN,
           key_event ⟨3, 0⟩ KEY_SPACE KEY_STROKE_UP]).map Prod.snd
        = some [key_event ⟨2, 0⟩ KEY_LEFTSHIFT KEY_STROKE_DOWN,
                key_event ⟨0, 0⟩ KEY_SPACE KEY_STROKE_DOWN,
                ⟨⟨0, 0⟩, EV_SYN, SYN_REPORT, 0⟩,
                key_event ⟨0, 0⟩ KEY_SPACE KEY_STROKE_UP] :=
  modifier_keeps_tap ⟨[], true, true, State.START, State.MODIFIER_HELD⟩ rfl rfl
    KEY_LEFTALT (by decide) (by decide) (by decide) ⟨2, 0⟩ ⟨1, 0⟩ ⟨2, 0⟩ ⟨3, 0⟩

/-! ## Release and duplicate press of a held mapped key -/

/-- C16 as stated fails in its last part: after DOWN(SPACE), DOWN(H),
DOWN(CAPSLOCK) the layer is in KEY_HELD with H in the ledger and the CAPSLOCK
machine is pending with its flag true; a second DOWN(H) then writes
DOWN(LEFTCTRL) and clears `caps_tapped_should_emit`. -/
theorem duplicate_down_counterexample :
    main_run main_init
        [key_event ⟨1, 0⟩ KEY_SPACE KEY_STROKE_DOWN,
         key_event ⟨2, 0⟩ KEY_H KEY_STROKE_DOWN,
         key_event ⟨3, 0⟩ KEY_CAPSLOCK KEY_STROKE_DOWN]
      = some (⟨[KEY_H], false, true, State.MODIFIER_HELD, State.KEY_HELD⟩,
          [key_event ⟨2, 0⟩ KEY_LEFT KEY_STROKE_DOWN])
    ∧ main_step ⟨[KEY_H], false, true, State.MODIFIER_HELD, State.KEY_HELD⟩
        (key_event ⟨4, 0⟩ KEY_H KEY_STROKE_DOWN)
      = some (⟨[KEY_H], false, false, State.MODIFIER_HELD, State.KEY_HELD⟩,
          [key_event ⟨0, 0⟩ KEY_LEFTCTRL KEY_STROKE_DOWN]) := by
  decide

/-- C16, amended. Release of a held mapped key: in every reachable state
with `state_space` KEY_HELD, an UP record for a code c in the ledger writes
exactly one record, UP for the mapped code of c, removes c and nothing else
from the ledger, and sets `state_space` to MODIFIER_HELD if the ledger is now
empty and leaves it at KEY_HELD otherwise; a DOWN for a code already in the
ledger writes nothing and changes no local, except that when the CAPSLOCK
machine is in MODIFIER_HELD with `caps_tapped_should_emit` true it writes the
one synthetic DOWN(LEFTCTRL) and clears that flag. -/
theorem release_of_held_key (s : MainState) (hr : Reachable s)
    (hs : s.state_space = State.KEY_HELD) (c : Nat) (hc : c ∈ s.held_keys)
    (t : timeval) :
    main_step s (key_event t c KEY_STROKE_UP)
        = some ({ s with held_keys := set_erase c s.held_keys,
                         state_space :=
                           if set_erase c s.held_keys = [] then State.MODIFIER_HELD
                           else State.KEY_HELD },
            [key_event t (map_space c) KEY_STROKE_UP])
    ∧ (∀ x, x ∈ set_erase c s.held_keys ↔ x ∈ s.held_keys ∧ x ≠ c)
    ∧ main_step s (key_event t c KEY_STROKE_DOWN)
        = if s.state_caps = State.MODIFIER_HELD ∧ s.caps_tapped_should_emit = true then
            some ({ s with caps_tapped_should_emit := false }, [ctrl_down])
          else some (s, []) := by
  have hentry := hr.inv.1 c hc
  obtain ⟨-, h57, h58, -⟩ := map_space_facts c hentry.2
  have hat := map_space_at_of_entry c hentry.2
  refine ⟨?_, fun x => mem_set_erase c x s.held_keys, ?_⟩
  · have hcaps := switch_state_caps_not_down s (key_event t c KEY_STROKE_UP)
      (show c ≠ KEY_CAPSLOCK from h58)
      (show KEY_STROKE_UP ≠ KEY_STROKE_DOWN by decide)
    rw [main_step_of_caps_pass rfl hcaps]
    obtain ⟨held, st, ct, sc, ss⟩ := s
    simp only at hs hc
    subst hs
    simp [switch_state_space, key_event, h57, hc, hat, map_neg_one]
  · have hcaps := switch_state_caps_down s (key_event t c KEY_STROKE_DOWN)
      (show c ≠ KEY_CAPSLOCK from h58) rfl
    obtain ⟨held, st, ct, sc, ss⟩ := s
    simp only at hs hc
    subst hs
    by_cases hcond : sc = State.MODIFIER_HELD ∧ ct = true
    · simp only [hcond, and_self, if_true] at hcaps ⊢
      rw [main_step_of_caps_pass rfl hcaps]
      simp [switch_state_space, key_event, h57, hc]
    · simp only [hcond, if_false] at hcaps ⊢
      rw [main_step_of_caps_pass rfl hcaps]
      simp [switch_state_space, key_event, h57, hc]

theorem release_of_held_key_witness :
    main_step ⟨[KEY_H, KEY_J], false, true, State.START, State.KEY_HELD⟩
          (key_event ⟨9, 0⟩ KEY_H KEY_STROKE_UP)
        = some (⟨[KEY_J], false, true, State.START, State.KEY_HELD⟩,
            [key_event ⟨9, 0⟩ KEY_LEFT KEY_STROKE_UP])
    ∧ (∀ x, x ∈ set_erase KEY_H [KEY_H, KEY_J] ↔ x ∈ [KEY_H, KEY_J] ∧ x ≠ KEY_H)
    ∧ main_step ⟨[KEY_H, KEY_J], false, true, State.START, State.KEY_HELD⟩
          (key_event ⟨9, 0⟩ KEY_H KEY_STROKE_DOWN)
        = some (⟨[KEY_H, KEY_J], false, true, State.START, State.KEY_HELD⟩, []) :=
  release_of_held_key ⟨[KEY_H, KEY_J], false, true, State.START, State.KEY_HELD⟩
    ⟨[key_event ⟨1, 0⟩ KEY_SPACE KEY_STROKE_DOWN,
      key_event ⟨2, 0⟩ KEY_J KEY_STROKE_DOWN,
      key_event ⟨3, 0⟩ KEY_H KEY_STROKE_DOWN],
     [key_event ⟨2, 0⟩ KEY_DOWN KEY_STROKE_DOWN,
      key_event ⟨3, 0⟩ KEY_LEFT KEY_STROKE_DOWN], by decide⟩
    rfl KEY_H (by decide) ⟨9, 0⟩


/-! ## Independence of the timestamps -/

theorem switch_state_caps_untimed (s : MainState) (t t2 : timeval)
    (ty c : Nat) (v : Int) :
    (switch_state_caps s ⟨t, ty, c, v⟩).1 = (switch_state_caps s ⟨t2, ty, c, v⟩).1
    ∧ (switch_state_caps s ⟨t, ty, c, v⟩).2.1
        = (switch_state_caps s ⟨t2, ty, c, v⟩).2.1
    ∧ (switch_state_caps s ⟨t, ty, c, v⟩).2.2.map kind_code_value
        = (switch_state_caps s ⟨t2, ty, c, v⟩).2.2.map kind_code_value := by
  obtain ⟨held, st, ct, sc, ss⟩ := s
  cases sc <;> simp only [switch_state_caps] <;> (try split_ifs) <;>
    simp [kind_code_value]

theorem switch_state_space_untimed (s : MainState) (t t2 : timeval)
    (ty c : Nat) (v : Int) :
    untimed (switch_state_space s ⟨t, ty, c, v⟩)
      = untimed (switch_state_space s ⟨t2, ty, c, v⟩) := by
  obtain ⟨held, st, ct, sc, ss⟩ := s
  cases ss <;> simp only [switch_state_space, map_neg_one] <;>
    cases map_space_at c <;> cases held_keys_up held <;>
    (try split_ifs) <;> (try simp [untimed, kind_code_value]) <;>
    (try split_ifs) <;> (try simp [untimed, kind_code_value])

theorem main_step_untimed (s : MainState) (e e2 : input_event)
    (h : kind_code_value e = kind_code_value e2) :
    untimed (main_step s e) = untimed (main_step s e2) := by
  obtain ⟨t, ty, c, v⟩ := e
  obtain ⟨t2, ty2, c2, v2⟩ := e2
  simp only [kind_code_value, Prod.mk.injEq] at h
  obtain ⟨rfl, rfl, rfl⟩ := h
  obtain ⟨hc1, hc2, hc3⟩ := switch_state_caps_untimed s t t2 ty c v
  have hsp := fun s0 => switch_state_space_untimed s0 t t2 ty c v
  unfold main_step
  simp only
  by_cases g1 : ty = EV_MSC ∧ c = MSC_SCAN
  · rw [if_pos g1, if_pos g1]
  rw [if_neg g1, if_neg g1]
  by_cases g2 : ty ≠ EV_KEY
  · rw [if_pos g2, if_pos g2]
    simp [untimed, kind_code_value]
  rw [if_neg g2, if_neg g2]
  rcases hsw : switch_state_caps s ⟨t, ty, c, v⟩ with ⟨b, s0, o0⟩
  rcases hsw2 : switch_state_caps s ⟨t2, ty, c, v⟩ with ⟨b2, s02, o02⟩
  rw [hsw, hsw2] at hc1 hc2 hc3
  simp only at hc1 hc2 hc3
  subst hc1 hc2
  cases b
  · have := hsp s0
    dsimp only
    cases h1 : switch_state_space s0 ⟨t, ty, c, v⟩ <;>
      cases h2 : switch_state_space s0 ⟨t2, ty, c, v⟩ <;>
      simp only [h1, h2, untimed, Option.map_none', Option.map_some',
        Option.some.injEq, Prod.mk.injEq, reduceCtorEq] at this ⊢
    simp only [List.map_append, hc3, this.1, this.2, and_self]
  · simp [untimed, hc3]

theorem main_run_untimed (s : MainState) (inputs inputs2 : List input_event)
    (h : inputs.map kind_code_value = inputs2.map kind_code_value) :
    untimed (main_run s inputs) = untimed (main_run s inputs2) := by
  induction inputs generalizing s inputs2 with
  | nil =>
    cases inputs2 with
    | nil => rfl
    | cons e2 es2 => simp at h
  | cons e es ih =>
    cases inputs2 with
    | nil => simp at h
    | cons e2 es2 =>
      simp only [List.map_cons, List.cons.injEq] at h
      have hstep := main_step_untimed s e e2 h.1
      cases h1 : main_step s e with
      | none =>
        cases h2 : main_step s e2 with
        | none => simp [main_run, h1, h2]
        | some r2 => simp [h1, h2, untimed] at hstep
      | some r1 =>
        cases h2 : main_step s e2 with
        | none => simp [h1, h2, untimed] at hstep
        | some r2 =>
          obtain ⟨s1, o1⟩ := r1
          obtain ⟨s2, o2⟩ := r2
          simp only [h1, h2, untimed, Option.map_some', Option.some.injEq,
            Prod.mk.injEq] at hstep
          obtain ⟨rfl, ho⟩ := hstep
          have hrest := ih s1 es2 h.2
          rw [main_run_cons_of_step h1, main_run_cons_of_step h2]
          cases h3 : main_run s1 es <;> cases h4 : main_run s1 es2 <;>
            simp only [h3, h4, untimed, Option.map_none', Option.map_some',
              Option.some.injEq, Prod.mk.injEq, reduceCtorEq] at hrest ⊢
          simp only [List.map_append, ho, hrest.1, hrest.2, and_self]

/-- C12. Clock independence: for two input sequences that agree on every
record's kind, code and value, after each number of records read from the
initial state the two runs are both defined or both undefined, reach the
same locals, and have written outputs that agree on every record's kind, code
and value. -/
theorem clock_independence (inputs inputs2 : List input_event)
    (h : inputs.map kind_code_value = inputs2.map kind_code_value) (n : Nat) :
    untimed (main_run main_init (inputs.take n))
      = untimed (main_run main_init (inputs2.take n)) := by
  apply main_run_untimed
  rw [List.map_take, List.map_take, h]

theorem clock_independence_witness :
    untimed (main_run main_init
        ([key_event ⟨1, 0⟩ KEY_SPACE KEY_STROKE_DOWN,
          key_event ⟨1, 5⟩ KEY_H KEY_STROKE_DOWN,
          key_event ⟨2, 0⟩ KEY_SPACE KEY_STROKE_UP].take 3))
      = untimed (main_run main_init
        ([key_event ⟨7, 0⟩ KEY_SPACE KEY_STROKE_DOWN,
          key_event ⟨99, 0⟩ KEY_H KEY_STROKE_DOWN,
          key_event ⟨99, 1⟩ KEY_SPACE KEY_STROKE_UP].take 3)) :=
  clock_independence
    [key_event ⟨1, 0⟩ KEY_SPACE KEY_STROKE_DOWN,
     key_event ⟨1, 5⟩ KEY_H KEY_STROKE_DOWN,
     key_event ⟨2, 0⟩ KEY_SPACE KEY_STROKE_UP]
    [key_event ⟨7, 0⟩ KEY_SPACE KEY_STROKE_DOWN,
     key_event ⟨99, 0⟩ KEY_H KEY_STROKE_DOWN,
     key_event ⟨99, 1⟩ KEY_SPACE KEY_STROKE_UP]
    (by decide) 3

/-! ## LEFTCTRL written on behalf of CAPSLOCK -/

theorem map_space_ne_leftctrl (c : Nat) : map_space c ≠ KEY_LEFTCTRL := by
  by_cases h : map_space c = 0
  · rw [h]; decide
  · exact (map_space_facts c h).2.2.2.1

theorem down_minus_up_eq_zero (Y : Nat) (l : List input_event)
    (h : ∀ e ∈ l, e.type = EV_KEY → e.code ≠ Y) : down_minus_up Y l = 0 := by
  induction l with
  | nil => exact down_minus_up_nil Y
  | cons x xs ih =>
    rw [down_minus_up_cons, ih (fun e he => h e (List.mem_cons_of_mem x he)),
      down_minus_up_other_code Y x (h x (List.mem_cons_self x xs))]
    rfl

theorem held_keys_up_codes {held : List Nat} {batch : List input_event}
    (h : held_keys_up held = some batch) :
    ∀ e ∈ batch, ∃ c, e.code = map_space c := by
  induction held generalizing batch with
  | nil =>
    simp only [held_keys_up, Option.some.injEq] at h
    subst h
    intro e he
    exact absurd he (List.not_mem_nil e)
  | cons x xs ih =>
    simp only [held_keys_up] at h
    cases hat : map_space_at x with
    | none => simp [hat] at h
    | some m =>
      cases hrest : held_keys_up xs with
      | none => simp [hat, hrest] at h
      | some evs =>
        simp only [hat, hrest, Option.some.injEq] at h
        subst h
        intro e he
        rcases List.mem_cons.1 he with rfl | he
        · exact ⟨x, (map_space_at_some hat).1⟩
        · exact ih hrest e he

theorem switch_state_space_ctrl {s s1 : MainState} {e : input_event}
    {out : List input_event} (he : e.type = EV_KEY → e.code ≠ KEY_LEFTCTRL)
    (h : switch_state_space s e = some (s1, out)) :
    s1.state_caps = s.state_caps
    ∧ s1.caps_tapped_should_emit = s.caps_tapped_should_emit
    ∧ down_minus_up KEY_LEFTCTRL out = 0 := by
  have hfw : down_minus_up KEY_LEFTCTRL [e] = 0 :=
    down_minus_up_other_code _ e he
  have hmapped : ∀ m, down_minus_up KEY_LEFTCTRL
      [⟨e.time, e.type, map_space m, e.value⟩] = 0 :=
    fun m => down_minus_up_other_code _ _ (fun _ => map_space_ne_leftctrl m)
  have hnil := down_minus_up_nil KEY_LEFTCTRL
  have hcombo := down_minus_up_write_combo KEY_LEFTCTRL KEY_SPACE
  simp only [KEY_LEFTCTRL, KEY_SPACE] at hfw hnil hcombo
  obtain ⟨held, st, ct, sc, ss⟩ := s
  cases ss
  · simp only [switch_state_space] at h
    split_ifs at h <;> cases h <;> simp [hnil, hfw]
  · simp only [switch_state_space, map_neg_one] at h
    by_cases c1 : e.code = KEY_SPACE ∧ e.value ≠ KEY_STROKE_UP
    · rw [if_pos c1] at h; cases h; simp [hnil]
    rw [if_neg c1] at h
    by_cases c2 : e.code = KEY_SPACE
    · rw [if_pos c2] at h
      split_ifs at h <;> cases h <;> simp [hnil, hcombo]
    rw [if_neg c2] at h
    by_cases c3 : e.value = KEY_STROKE_DOWN
    · rw [if_pos c3] at h
      cases hat : map_space_at e.code with
      | none => simp [hat] at h
      | some m =>
        have hm := map_space_at_some hat
        simp only [hat] at h
        by_cases hz : m ≠ 0
        · rw [if_pos hz] at h
          cases h
          rw [hm.1]
          exact ⟨rfl, rfl, hmapped _⟩
        · rw [if_neg hz] at h
          cases h; simp [hfw]
    · rw [if_neg c3] at h; cases h; simp [hfw]
  · simp only [switch_state_space, map_neg_one] at h
    by_cases c1 : e.code = KEY_SPACE ∧ e.value ≠ KEY_STROKE_UP
    · rw [if_pos c1] at h; cases h; simp [hnil]
    rw [if_neg c1] at h
    by_cases c2 : e.value = KEY_STROKE_DOWN ∧ e.code ∈ held
    · rw [if_pos c2] at h; cases h; simp [hnil]
    rw [if_neg c2] at h
    by_cases c3 : e.value = KEY_STROKE_UP
    · rw [if_pos c3] at h
      by_cases c4 : e.code ∈ held
      · rw [if_pos c4] at h
        cases hat : map_space_at e.code with
        | none => simp [hat] at h
        | some m =>
          have hm := map_space_at_some hat
          simp only [hat, Option.some.injEq, Prod.mk.injEq] at h
          obtain ⟨rfl, rfl⟩ := h
          rw [hm.1]
          exact ⟨rfl, rfl, hmapped _⟩
      · rw [if_neg c4] at h
        by_cases c5 : e.code = KEY_SPACE
        · rw [if_pos c5] at h
          cases hup : held_keys_up held with
          | none => simp [hup] at h
          | some batch =>
            simp only [hup, Option.some.injEq, Prod.mk.injEq] at h
            obtain ⟨rfl, rfl⟩ := h
            refine ⟨rfl, rfl, down_minus_up_eq_zero _ _ ?_⟩
            intro x hx _
            obtain ⟨c, hc⟩ := held_keys_up_codes hup x hx
            rw [hc]
            exact map_space_ne_leftctrl c
        · rw [if_neg c5] at h; cases h; simp [hfw]
    · rw [if_neg c3] at h
      cases hat : map_space_at e.code with
      | none => simp [hat] at h
      | some m =>
        have hm := map_space_at_some hat
        simp only [hat] at h
        by_cases hz : m ≠ 0
        · rw [if_pos hz] at h
          simp only [Option.some.injEq, Prod.mk.injEq] at h
          obtain ⟨rfl, rfl⟩ := h
          rw [hm.1]
          exact ⟨rfl, rfl, hmapped _⟩
        · rw [if_neg hz] at h
          cases h; simp [hfw]

theorem switch_state_caps_ctrl (s : MainState) (e : input_event)
    (hk : e.type = EV_KEY) :
    down_minus_up KEY_LEFTCTRL (switch_state_caps s e).2.2
      = ctrl_held (switch_state_caps s e).2.1 - ctrl_held s := by
  have hnil := down_minus_up_nil KEY_LEFTCTRL
  have hcombo := down_minus_up_write_combo KEY_LEFTCTRL KEY_ESC
  have hdown : down_minus_up KEY_LEFTCTRL [ctrl_down] = 1 := by
    rw [ctrl_down, down_minus_up_key]; simp
  have hup : down_minus_up KEY_LEFTCTRL
      [⟨e.time, e.type, KEY_LEFTCTRL, KEY_STROKE_UP⟩] = -1 := by
    rw [hk, down_minus_up_key]; simp
  simp only [KEY_LEFTCTRL, KEY_ESC, KEY_STROKE_UP] at hnil hcombo hdown hup
  obtain ⟨held, st, ct, sc, ss⟩ := s
  cases sc
  · simp only [switch_state_caps]
    split_ifs <;> simp [ctrl_held, hnil]
  · simp only [switch_state_caps]
    by_cases c1 : e.code = KEY_CAPSLOCK ∧ e.value ≠ KEY_STROKE_UP
    · rw [if_pos c1]; simp [hnil]
    rw [if_neg c1]
    by_cases c2 : e.code = KEY_CAPSLOCK
    · rw [if_pos c2]
      have hv : e.value = KEY_STROKE_UP := by
        by_contra hne
        exact c1 ⟨c2, hne⟩
      cases ct
      · simp [ctrl_held, hv, hup]
      · simp [ctrl_held, hcombo]
    rw [if_neg c2]
    by_cases c3 : e.value = KEY_STROKE_DOWN
    · rw [if_pos c3]
      cases ct
      · simp [ctrl_held, hnil]
      · simp [ctrl_held, hdown]
    · rw [if_neg c3]; simp [hnil]
  · simp [switch_state_caps, hnil]

theorem main_step_ctrl {s s1 : MainState} {e : input_event}
    {out : List input_event} (he : e.type = EV_KEY → e.code ≠ KEY_LEFTCTRL)
    (h : main_step s e = some (s1, out)) :
    down_minus_up KEY_LEFTCTRL out = ctrl_held s1 - ctrl_held s := by
  unfold main_step at h
  by_cases g1 : e.type = EV_MSC ∧ e.code = MSC_SCAN
  · rw [if_pos g1] at h; cases h
    rw [down_minus_up_nil, sub_self]
  rw [if_neg g1] at h
  by_cases g2 : e.type ≠ EV_KEY
  · rw [if_pos g2] at h; cases h
    rw [down_minus_up_other_code _ e (fun hk => absurd hk g2), sub_self]
  rw [if_neg g2] at h
  have hkey : e.type = EV_KEY := not_not.1 g2
  have hbal := switch_state_caps_ctrl s e hkey
  rcases hsw : switch_state_caps s e with ⟨b, s0, o0⟩
  rw [hsw] at h hbal
  simp only at hbal
  cases b
  · simp only at h
    cases hsp : switch_state_space s0 e with
    | none => simp [hsp] at h
    | some r =>
      obtain ⟨s2, o2⟩ := r
      simp only [hsp, Option.some.injEq, Prod.mk.injEq] at h
      obtain ⟨rfl, rfl⟩ := h
      obtain ⟨hf1, hf2, hz⟩ := switch_state_space_ctrl he hsp
      have hheld : ctrl_held s2 = ctrl_held s0 := by
        simp only [ctrl_held, hf1, hf2]
      rw [down_minus_up_append, hbal, hz, hheld, add_zero]
  · simp only [Option.some.injEq, Prod.mk.injEq] at h
    obtain ⟨rfl, rfl⟩ := h
    exact hbal

theorem main_run_ctrl {s s1 : MainState} {inputs out : List input_event}
    (hin : ∀ e ∈ inputs, e.type = EV_KEY → e.code ≠ KEY_LEFTCTRL)
    (h : main_run s inputs = some (s1, out)) :
    down_minus_up KEY_LEFTCTRL out = ctrl_held s1 - ctrl_held s := by
  induction inputs generalizing s out with
  | nil =>
    simp only [main_run, Option.some.injEq, Prod.mk.injEq] at h
    obtain ⟨rfl, rfl⟩ := h
    rw [down_minus_up_nil, sub_self]
  | cons e es ih =>
    cases hstep : main_step s e with
    | none => simp [main_run, hstep] at h
    | some r =>
      obtain ⟨s0, o0⟩ := r
      rw [main_run_cons_of_step hstep] at h
      cases hrun : main_run s0 es with
      | none => simp [hrun] at h
      | some r2 =>
        obtain ⟨s2, o2⟩ := r2
        simp only [hrun, Option.map_some', Option.some.injEq, Prod.mk.injEq] at h
        obtain ⟨rfl, rfl⟩ := h
        have h1 := main_step_ctrl (hin e (List.mem_cons_self e es)) hstep
        have h2 := ih (fun x hx => hin x (List.mem_cons_of_mem e hx)) hrun
        rw [down_minus_up_append, h1, h2]
        ring

/-- C15. Modifier balance: for every input sequence with no KEY record of
code LEFTCTRL, after every prefix the loop has processed from the initial
state, the DOWN(LEFTCTRL) records written so far minus the UP(LEFTCTRL)
records written so far number 1 if `state_caps` is MODIFIER_HELD with
`caps_tapped_should_emit` false and 0 otherwise; and releasing CAPSLOCK in
MODIFIER_HELD writes the tap combo of ESC (no LEFTCTRL record) if the flag is
still true and exactly one UP(LEFTCTRL) otherwise, returning to START.  Every
prefix is processed when all KEY codes are below MAX_KEY. -/
theorem modifier_balance (inputs : List input_event)
    (hin : ∀ e ∈ inputs, e.type = EV_KEY → e.code ≠ KEY_LEFTCTRL) :
    ((∀ e ∈ inputs, e.type = EV_KEY → e.code < MAX_KEY) →
        ∀ n, (main_run main_init (inputs.take n)).isSome = true)
    ∧ (∀ n s out, main_run main_init (inputs.take n) = some (s, out) →
        down_minus_up KEY_LEFTCTRL out
          = if s.state_caps = State.MODIFIER_HELD
                ∧ s.caps_tapped_should_emit = false then 1 else 0)
    ∧ (∀ s : MainState, s.state_caps = State.MODIFIER_HELD → ∀ t,
        main_step s (key_event t KEY_CAPSLOCK KEY_STROKE_UP)
          = some ({ s with caps_tapped_should_emit := false,
                           state_caps := State.START },
              if s.caps_tapped_should_emit then write_combo KEY_ESC
              else [key_event t KEY_LEFTCTRL KEY_STROKE_UP])) := by
  refine ⟨?_, ?_, ?_⟩
  · intro hlt n
    exact main_run_defined main_init _ Inv_main_init
      (fun e he => hlt e (List.mem_of_mem_take he))
  · intro n s out hrun
    have := main_run_ctrl (fun e he => hin e (List.mem_of_mem_take he)) hrun
    rw [this]
    simp [ctrl_held, main_init]
  · intro s hs t
    obtain ⟨held, st, ct, sc, ss⟩ := s
    simp only at hs
    subst hs
    cases ct <;> simp [main_step, switch_state_caps, key_event]

theorem modifier_balance_witness :
    down_minus_up KEY_LEFTCTRL
        [key_event ⟨0, 0⟩ KEY_LEFTCTRL KEY_STROKE_DOWN,
         key_event ⟨2, 0⟩ KEY_A KEY_STROKE_DOWN]
      = if State.MODIFIER_HELD = State.MODIFIER_HELD ∧ false = false then 1 else 0 :=
  (modifier_balance
      [key_event ⟨1, 0⟩ KEY_CAPSLOCK KEY_STROKE_DOWN,
       key_event ⟨2, 0⟩ KEY_A KEY_STROKE_DOWN,
       key_event ⟨3, 0⟩ KEY_CAPSLOCK KEY_STROKE_UP]
      (by decide)).2.1 2
      ⟨[], true, false, State.MODIFIER_HELD, State.START⟩
      [key_event ⟨0, 0⟩ KEY_LEFTCTRL KEY_STROKE_DOWN,
       key_event ⟨2, 0⟩ KEY_A KEY_STROKE_DOWN]
      (by decide)

/-! ## Repeats of a mapped key that is not in the ledger -/

/-- C17 fails on the code: H is pressed before SPACE (forwarded as H), then
SPACE and J are pressed, so the layer is in KEY_HELD with only J in the
ledger and no DOWN(LEFT) has been written; the auto-repeat of H is then
written as REPEAT(LEFT). -/
theorem spurious_repeat_written :
    main_run main_init
        [key_event ⟨1, 0⟩ KEY_H KEY_STROKE_DOWN,
         key_event ⟨2, 0⟩ KEY_SPACE KEY_STROKE_DOWN,
         key_event ⟨3, 0⟩ KEY_J KEY_STROKE_DOWN]
      = some (⟨[KEY_J], false, true, State.START, State.KEY_HELD⟩,
          [key_event ⟨1, 0⟩ KEY_H KEY_STROKE_DOWN,
           key_event ⟨3, 0⟩ KEY_DOWN KEY_STROKE_DOWN])
    ∧ main_step ⟨[KEY_J], false, true, State.START, State.KEY_HELD⟩
        (key_event ⟨4, 0⟩ KEY_H KEY_STROKE_REPEAT)
      = some (⟨[KEY_J], false, true, State.START, State.KEY_HELD⟩,
          [key_event ⟨4, 0⟩ KEY_LEFT KEY_STROKE_REPEAT])
    ∧ map_space KEY_H = KEY_LEFT
    ∧ KEY_H ∉ [KEY_J]
    ∧ count_key KEY_LEFT KEY_STROKE_DOWN
        [key_event ⟨1, 0⟩ KEY_H KEY_STROKE_DOWN,
         key_event ⟨3, 0⟩ KEY_DOWN KEY_STROKE_DOWN] = 0 := by
  decide

/-! ## Reads of `map_space` past the table -/

theorem switch_state_space_above_table (s : MainState) (hinv : Inv s)
    (e : input_event) (hge : MAX_KEY ≤ e.code) :
    switch_state_space s e = none ↔
      ((s.state_space = State.MODIFIER_HELD ∧ e.value = KEY_STROKE_DOWN)
        ∨ (s.state_space = State.KEY_HELD ∧ e.value ≠ KEY_STROKE_UP)) := by
  have hat : map_space_at e.code = none := by
    simp only [map_space_at, if_neg (Nat.not_lt.2 hge)]
  have hnot : e.code ∉ s.held_keys := by
    intro hin
    exact Nat.not_lt.2 hge (hinv.1 _ hin).1
  have hsp : e.code ≠ 57 := by
    simp only [MAX_KEY] at hge
    omega
  obtain ⟨held, st, ct, sc, ss⟩ := s
  simp only at hnot
  cases ss
  · simp [switch_state_space, hsp]
  · by_cases hv : e.value = 1
    · simp [switch_state_space, hsp, hat, hv]
    · simp [switch_state_space, hsp, hat, hv]
  · by_cases hv : e.value = 0
    · simp [switch_state_space, hsp, hat, hv, hnot]
    · simp [switch_state_space, hsp, hat, hv, hnot]

/-- The iterations that read `map_space` past the table: in a reachable
state the iteration is undefined exactly for a KEY record with a code not
below MAX_KEY that arrives with value DOWN while `state_space` is
MODIFIER_HELD, or with a value other than UP while it is KEY_HELD. -/
theorem main_step_undefined_iff (s : MainState) (hr : Reachable s)
    (e : input_event) :
    main_step s e = none ↔
      (e.type = EV_KEY ∧ MAX_KEY ≤ e.code
        ∧ ((s.state_space = State.MODIFIER_HELD ∧ e.value = KEY_STROKE_DOWN)
          ∨ (s.state_space = State.KEY_HELD ∧ e.value ≠ KEY_STROKE_UP))) := by
  by_cases hk : e.type = EV_KEY
  · by_cases hge : MAX_KEY ≤ e.code
    · have hcl : e.code ≠ KEY_CAPSLOCK := by
        simp only [MAX_KEY] at hge
        simp only [KEY_CAPSLOCK]
        omega
      obtain ⟨hf1, hf2, -⟩ := switch_state_caps_frame s e
      obtain ⟨hb, -⟩ := switch_state_caps_passthrough s e hcl
      have hinv0 := Inv_of_caps e hr.inv
      rcases hsw : switch_state_caps s e with ⟨b, s0, o0⟩
      rw [hsw] at hf1 hf2 hb hinv0
      simp only at hf1 hf2 hb hinv0
      subst hb
      rw [main_step_of_caps_pass hk hsw]
      have := switch_state_space_above_table s0 hinv0 e hge
      rw [hf2] at this
      simp only [Option.map_eq_none', this, hk, hge, true_and]
    · have hdef := main_step_defined s e hr.inv (fun _ => Nat.lt_of_not_le hge)
      constructor
      · intro h
        rw [h] at hdef
        exact absurd hdef (by simp)
      · intro h
        exact absurd h.2.1 hge
  · have hdef := main_step_defined s e hr.inv (fun h => absurd h hk)
    constructor
    · intro h
      rw [h] at hdef
      exact absurd hdef (by simp)
    · intro h
      exact absurd h.1 hk

/-- C18 fails on the code: 65535 is a 16-bit code that is not below MAX_KEY;
with the layer in KEY_HELD (reached by DOWN(SPACE), DOWN(H)) a KEY record of
that code with value REPEAT makes the iteration evaluate
`map_space[65535]`, which is no slot of the 248-slot table. -/
theorem lookup_index_past_table :
    (65535 < 2 ^ 16 ∧ ¬ 65535 < MAX_KEY)
    ∧ main_run main_init
        [key_event ⟨1, 0⟩ KEY_SPACE KEY_STROKE_DOWN,
         key_event ⟨2, 0⟩ KEY_H KEY_STROKE_DOWN]
      = some (⟨[KEY_H], false, true, State.START, State.KEY_HELD⟩,
          [key_event ⟨2, 0⟩ KEY_LEFT KEY_STROKE_DOWN])
    ∧ map_space_at 65535 = none
    ∧ main_step ⟨[KEY_H], false, true, State.START, State.KEY_HELD⟩
        (key_event ⟨3, 0⟩ 65535 KEY_STROKE_REPEAT) = none := by
  decide

end InterceptionVimproved
